import Mathlib

/-!
Shallow embedding of `pytorch_lightning/trainer/supporters.py`
(the data-loading combinator core: `CycleIterator`, `CombinedDataset`,
`CombinedLoader`, `CombinedLoaderIterator`), together with proofs of the
behavioural properties claimed by the specification.

Conventions of the embedding:
* Python exceptions become an explicit error type `PyErr`; a function that can
  raise returns `Except PyErr _`, and stateful methods return the mutated
  object alongside the result.
* Python `int` lengths and `float('inf')` become the type `Length`.
* The nested loader containers the claims quantify over (a single bare
  source, an ordered sequence of sources, or a keyed mapping of sources)
  become the type `Container`.
-/

deriving instance DecidableEq for Except

namespace Supporters

/-- Python exception kinds observable in this file: `StopIteration`,
`MisconfigurationException` (carrying its message), `ValueError` (raised by
`min`/`max` on an empty iterable — the spec's `AggregationError`),
`TypeError`, and a stand-in for any other exception a source may raise. -/
inductive PyErr where
  | stopIteration
  | misconfiguration (msg : String)
  | valueError
  | typeError
  | otherError
deriving DecidableEq, Repr

/-- A Python length value: a non-negative integer or `float('inf')`. -/
inductive Length where
  | fin (n : Nat)
  | inf
deriving DecidableEq, Repr

/-- Python `<` on lengths (numbers with `float('inf')`). -/
def Length.lt : Length → Length → Bool
  | .fin a, .fin b => decide (a < b)
  | .fin _, .inf => true
  | .inf, _ => false

/-- Python `length <= k` for a counter `k : Nat`; this is the guard
`self.counter >= self.length` of `CycleIterator.__next__`
(always false when the length is `inf`). -/
def Length.leNat : Length → Nat → Bool
  | .fin n, k => decide (n ≤ k)
  | .inf, _ => false

/-- The nested container shapes the claims quantify over: a single bare
value, an ordered sequence, or a keyed mapping (`dict`, whose insertion
order we keep as a list of key-value pairs). -/
inductive Container (α : Type u) where
  | single (a : α)
  | seq (xs : List α)
  | map (kvs : List (String × α))
deriving DecidableEq, Repr

/-- Modelled from the spec: ShapeMap (`apply_to_collection` from
`pytorch_lightning.utilities.apply_func`, which is not under `src/`) applies
a function to every leaf of the container, rebuilding the same container
shape; sequence and mapping nodes themselves are never treated as leaves
(the `wrong_dtype` guard of the Python helper). -/
def Container.applyToCollection (f : α → β) : Container α → Container β
  | .single a => .single (f a)
  | .seq xs => .seq (xs.map f)
  | .map kvs => .map (kvs.map fun kv => (kv.1, f kv.2))

/-- The leaves of a container, in the order Python traverses them
(a mapping contributes its values in insertion order). -/
def Container.leaves : Container α → List α
  | .single a => [a]
  | .seq xs => xs
  | .map kvs => kvs.map Prod.snd

/-- Two containers have the same structural shape: same kind of node, same
length for sequences, and the same keys in the same order for mappings. -/
def Container.sameShape : Container α → Container β → Prop
  | .single _, .single _ => True
  | .seq xs, .seq ys => xs.length = ys.length
  | .map kvs, .map kvs' => kvs.map Prod.fst = kvs'.map Prod.fst
  | _, _ => False

/-- Python `max(iterable)` fold step: keep the current value unless the new
item is strictly greater. -/
def pyFoldMax (x : Length) (xs : List Length) : Length :=
  xs.foldl (fun m y => if m.lt y then y else m) x

/-- Python `min(iterable)` fold step. -/
def pyFoldMin (x : Length) (xs : List Length) : Length :=
  xs.foldl (fun m y => if y.lt m then y else m) x

/-- Python `max(iterable)`: `ValueError` on an empty iterable
(the spec's `AggregationError`). -/
def pyMax : List Length → Except PyErr Length
  | [] => .error .valueError
  | x :: xs => .ok (pyFoldMax x xs)

/-- Python `min(iterable)`: `ValueError` on an empty iterable
(the spec's `AggregationError`). -/
def pyMin : List Length → Except PyErr Length
  | [] => .error .valueError
  | x :: xs => .ok (pyFoldMin x xs)

/-- One entry of a source's stream: either a value it yields, or a point at
which the source raises a non-exhaustion error (any exception other than
`StopIteration`). -/
inductive Pull (α : Type u) where
  | val (a : α)
  | err
deriving DecidableEq, Repr

/-- Modelled from the spec: a Source (a dataloader, an external collaborator
of this file) is an opaque sequential reader producing a fresh
exhaustion-terminated iterator each time one is requested. `data` lists the
outcomes of its successive pulls; `dataset` is the `get_len` of the object
behind its `dataset` attribute (`Length.inf` standing for an absent/`None`
dataset, since `get_len(None)` is `float('inf')`). -/
structure Source (α : Type u) where
  data : List (Pull α)
  dataset : Length
deriving DecidableEq, Repr

/-- Modelled from the spec: `get_len` (from `pytorch_lightning.utilities.data`,
not under `src/`) returns the source's element count; sources here are finite
streams, so the count is the stream length. -/
def Source.get_len (s : Source α) : Length := .fin s.data.length

/-- A well-behaved source: it yields a value at every pull, never raising a
non-exhaustion error, hence it yields exactly its declared number of
elements before `StopIteration`. -/
def Source.allVal (s : Source α) : Bool :=
  s.data.all fun p => match p with | .val _ => true | .err => false

/-- One `next()` on a fresh iterator of `s` positioned at index `i`:
a value advances the position, a raising entry advances it while
propagating the error, past-the-end raises `StopIteration`. -/
def Source.pull (s : Source α) (i : Nat) : Except PyErr α × Nat :=
  match s.data.get? i with
  | some (.val x) => (.ok x, i + 1)
  | some .err => (.error .otherError, i + 1)
  | none => (.error .stopIteration, i)

/-- `CycleIterator`: `length` is the element budget (`inf` if the constructor
received `None`), `loader` the wrapped source, `loader_iter` the current
position of `self._loader_iter` (`none` before `__iter__` runs), and
`counter` the produced-count of the current pass. -/
structure CycleIterator (α : Type u) where
  length : Length
  loader : Source α
  loader_iter : Option Nat
  counter : Nat
deriving DecidableEq, Repr

/-- `CycleIterator.__init__`: a `None` length becomes `float('inf')`;
no iterator is created yet and the counter starts at 0. -/
def CycleIterator.init (loader : Source α) (length : Option Length) : CycleIterator α :=
  { length := length.getD .inf, loader := loader, loader_iter := none, counter := 0 }

/-- `CycleIterator.__iter__`: reset the counter, create the internal
iterator, return self. -/
def CycleIterator.beginIter (c : CycleIterator α) : CycleIterator α :=
  { c with counter := 0, loader_iter := some 0 }

/-- `CycleIterator.__len__` returns `self.length`. -/
def CycleIterator.len (c : CycleIterator α) : Length := c.length

/-- `CycleIterator.__next__`: raise `StopIteration` once the counter has
reached the budget; otherwise pull from the internal iterator, and on its
`StopIteration` only, recreate the iterator from the loader and pull its
first element once. The `finally` block increments the counter on every
path that reaches the `try`, including the failing restart of a degenerate
empty loader. Calling `__next__` before `__iter__` is a `TypeError`
(`next(None)` in Python). -/
def CycleIterator.next (c : CycleIterator α) : Except PyErr α × CycleIterator α :=
  if c.length.leNat c.counter then (.error .stopIteration, c)
  else
    match c.loader_iter with
    | none => (.error .typeError, c)
    | some i =>
      match c.loader.pull i with
      | (.ok x, i') => (.ok x, { c with loader_iter := some i', counter := c.counter + 1 })
      | (.error .stopIteration, _) =>
        match c.loader.pull 0 with
        | (r, i') => (r, { c with loader_iter := some i', counter := c.counter + 1 })
      | (.error e, i') => (.error e, { c with loader_iter := some i', counter := c.counter + 1 })

/-- `CombinedDataset.COMPUTE_FUNCS.keys()` (also `CombinedLoader.SUPPORTED_MODES`,
the same two mode strings). -/
def COMPUTE_FUNCS : List String := ["min_size", "max_size_cycle"]

/-- The reduction selected by `CombinedDataset.COMPUTE_FUNCS[mode]`:
Python `min` for `'min_size'`, Python `max` for `'max_size_cycle'`. -/
def computeFunc (mode : String) : List Length → Except PyErr Length :=
  if mode = "min_size" then pyMin else pyMax

/-- `CombinedDataset`: the nested container of datasets (each dataset
represented by its `get_len`, the only observation this file makes of it)
and the configured mode. -/
structure CombinedDataset where
  datasets : Container Length
  mode : String
deriving DecidableEq, Repr

/-- `CombinedDataset._calc_num_data`: validate the mode, take the leaf
lengths (`apply_to_collection` with `get_len`, the identity here because
datasets are already represented by their lengths), and reduce: a bare
dataset yields its own length, a mapping reduces over its values, a
sequence over its elements. -/
def CombinedDataset.calc_num_data (datasets : Container Length) (mode : String) :
    Except PyErr Length :=
  if mode ∉ COMPUTE_FUNCS then .error (.misconfiguration ("Invalid Mode: " ++ mode))
  else
    match datasets with
    | .single l => .ok l
    | .map kvs => computeFunc mode (kvs.map Prod.snd)
    | .seq ls => computeFunc mode ls

/-- `CombinedDataset.__init__`: store the datasets, then raise
`MisconfigurationException` for an unsupported mode. -/
def CombinedDataset.make (datasets : Container Length) (mode : String) :
    Except PyErr CombinedDataset :=
  if mode ∉ COMPUTE_FUNCS then
    .error (.misconfiguration ("You have selected unsupported mode " ++ mode))
  else .ok { datasets := datasets, mode := mode }

/-- `CombinedDataset.max_len`: always the `'max_size_cycle'` reduction,
whatever the configured mode. -/
def CombinedDataset.max_len (cd : CombinedDataset) : Except PyErr Length :=
  CombinedDataset.calc_num_data cd.datasets "max_size_cycle"

/-- `CombinedDataset.min_len`: always the `'min_size'` reduction, whatever
the configured mode. -/
def CombinedDataset.min_len (cd : CombinedDataset) : Except PyErr Length :=
  CombinedDataset.calc_num_data cd.datasets "min_size"

/-- `CombinedDataset.__len__`: the reduction selected by the configured mode. -/
def CombinedDataset.len (cd : CombinedDataset) : Except PyErr Length :=
  CombinedDataset.calc_num_data cd.datasets cd.mode

/-- A leaf of `CombinedLoader.loaders`: a raw source, or a source wrapped in
a `CycleIterator` by `_wrap_loaders_max_size_cycle`. -/
inductive Loader (α : Type u) where
  | src (s : Source α)
  | cyc (c : CycleIterator α)
deriving DecidableEq, Repr

/-- `get_len` of a loader leaf: the source's count, or `CycleIterator.__len__`
(its budget) for a wrapped leaf. -/
def Loader.get_len : Loader α → Length
  | .src s => s.get_len
  | .cyc c => c.len

/-- An observable interaction with a source during `CombinedLoader`
construction: reading its `dataset` attribute, querying its length, or
creating an iterator from it. -/
inductive TouchOp where
  | getattrDataset
  | lenQuery
  | iterCreate
deriving DecidableEq, Repr

/-- `CombinedLoader._wrap_loaders_max_size_cycle`: query every leaf's length
(`apply_to_collection` with `get_len`), reduce by Python `max` (a bare
source keeps its own length; `max` of an empty sequence or mapping raises
`ValueError`), then wrap every leaf of a mapping or sequence in a
`CycleIterator` bounded by that maximum; a single bare source is left
unwrapped. -/
def wrap_loaders_max_size_cycle (loaders : Container (Source α)) :
    Except PyErr (Container (Loader α)) :=
  let all_lengths := loaders.applyToCollection Source.get_len
  let maxLength : Except PyErr Length :=
    match all_lengths with
    | .single l => .ok l
    | .map kvs => pyMax (kvs.map Prod.snd)
    | .seq ls => pyMax ls
  match maxLength with
  | .error e => .error e
  | .ok length =>
    match loaders with
    | .map kvs =>
      .ok (.map (kvs.map fun kv => (kv.1, .cyc (CycleIterator.init kv.2 (some length)))))
    | .seq xs => .ok (.seq (xs.map fun v => .cyc (CycleIterator.init v (some length))))
    | .single s => .ok (.single (.src s))

/-- `CombinedLoader`: the (possibly cycle-wrapped) loader container, the
`CombinedDataset` built over the loaders' datasets, and the mode. -/
structure CombinedLoader (α : Type u) where
  loaders : Container (Loader α)
  dataset : CombinedDataset
  mode : String
deriving DecidableEq, Repr

/-- `CombinedLoader.__init__`, with the trace of source interactions it
performs: first `apply_to_collection(loaders, Iterable, getattr, 'dataset',
None, ...)` reads the `dataset` attribute of every leaf source; then
`CombinedDataset(datasets, mode)` raises `MisconfigurationException` for an
unsupported mode; the subsequent `SUPPORTED_MODES` check is unreachable for
a bad mode; finally, in `'max_size_cycle'` mode, the leaves are
cycle-wrapped, which queries every leaf's length. -/
def CombinedLoader.init (loaders : Container (Source α)) (mode : String) :
    Except PyErr (CombinedLoader α) × List TouchOp :=
  let trace := loaders.leaves.map fun _ => TouchOp.getattrDataset
  let datasets := loaders.applyToCollection fun s => s.dataset
  match CombinedDataset.make datasets mode with
  | .error e => (.error e, trace)
  | .ok ds =>
    if mode ∉ COMPUTE_FUNCS then
      (.error (.misconfiguration ("Invalid Mode: " ++ mode)), trace)
    else if mode = "max_size_cycle" then
      let trace' := trace ++ loaders.leaves.map fun _ => TouchOp.lenQuery
      match wrap_loaders_max_size_cycle loaders with
      | .error e => (.error e, trace')
      | .ok wrapped => (.ok { loaders := wrapped, dataset := ds, mode := mode }, trace')
    else
      (.ok { loaders := loaders.applyToCollection .src, dataset := ds, mode := mode }, trace)

/-- `CombinedLoader._calc_num_batches`: leaf lengths via `get_len`, reduced
by Python `min` (a bare loader yields its own length; `min` of an empty
sequence or mapping raises `ValueError`). -/
def calc_num_batches (loaders : Container (Loader α)) : Except PyErr Length :=
  match loaders.applyToCollection Loader.get_len with
  | .single l => .ok l
  | .map kvs => pyMin (kvs.map Prod.snd)
  | .seq ls => pyMin ls

/-- `CombinedLoader.__len__`. -/
def CombinedLoader.len (cl : CombinedLoader α) : Except PyErr Length :=
  calc_num_batches cl.loaders

/-- A live leaf iterator of a session: an exhaustible iterator over a raw
source at some position, or a (begun) `CycleIterator`, which is its own
iterator. -/
inductive LoaderIter (α : Type u) where
  | src (s : Source α) (i : Nat)
  | cyc (c : CycleIterator α)
deriving DecidableEq, Repr

/-- Python `iter(...)` on a loader leaf: a fresh position-0 iterator for a
raw source; `CycleIterator.__iter__` for a wrapped leaf. -/
def Loader.iter : Loader α → LoaderIter α
  | .src s => .src s 0
  | .cyc c => .cyc c.beginIter

/-- Python `next(...)` on a leaf iterator. -/
def LoaderIter.next : LoaderIter α → Except PyErr α × LoaderIter α
  | .src s i => match s.pull i with | (r, i') => (r, .src s i')
  | .cyc c => match c.next with | (r, c') => (r, .cyc c')

/-- The number of elements a leaf iterator has produced in this session
(the position of a raw-source iterator; the counter of a `CycleIterator`). -/
def LoaderIter.produced : LoaderIter α → Nat
  | .src _ i => i
  | .cyc c => c.counter

/-- `CombinedLoaderIterator.create_loader_iters`:
`apply_to_collection(loaders, Iterable, iter, wrong_dtype=(Sequence, Mapping))`
creates one iterator per leaf, preserving the container shape. -/
def create_loader_iters (loaders : Container (Loader α)) : Container (LoaderIter α) :=
  loaders.applyToCollection Loader.iter

/-- The sequence part of `request_next_batch`: pull every iterator in order;
the first exception aborts the traversal (the partially built result is
discarded, but iterators already pulled keep their advanced state). -/
def requestSeq : List (LoaderIter α) → Except PyErr (List α) × List (LoaderIter α)
  | [] => (.ok [], [])
  | it :: rest =>
    match it.next with
    | (.ok x, it') =>
      match requestSeq rest with
      | (.ok xs, rest') => (.ok (x :: xs), it' :: rest')
      | (.error e, rest') => (.error e, it' :: rest')
    | (.error e, it') => (.error e, it' :: rest)

/-- The mapping part of `request_next_batch`: pull the value under every key
in insertion order, rebuilding the mapping with the same keys; the first
exception aborts the traversal. -/
def requestMap : List (String × LoaderIter α) →
    Except PyErr (List (String × α)) × List (String × LoaderIter α)
  | [] => (.ok [], [])
  | (k, it) :: rest =>
    match it.next with
    | (.ok x, it') =>
      match requestMap rest with
      | (.ok xs, rest') => (.ok ((k, x) :: xs), (k, it') :: rest')
      | (.error e, rest') => (.error e, (k, it') :: rest')
    | (.error e, it') => (.error e, (k, it') :: rest)

/-- `CombinedLoaderIterator.request_next_batch`:
`apply_to_collection(loader_iters, Iterator, next)` pulls one batch from
every leaf iterator, rebuilding the container shape; any leaf's exception
propagates and no partial container is returned. -/
def request_next_batch : Container (LoaderIter α) →
    Except PyErr (Container α) × Container (LoaderIter α)
  | .single it =>
    match it.next with | (r, it') => (r.map .single, .single it')
  | .seq its =>
    match requestSeq its with | (r, its') => (r.map .seq, .seq its')
  | .map kvs =>
    match requestMap kvs with | (r, kvs') => (r.map .map, .map kvs')

/-- `CombinedLoaderIterator`: the loader container and the lazily created
container of leaf iterators (`None` until the first `next()`). -/
structure CombinedLoaderIterator (α : Type u) where
  loaders : Container (Loader α)
  loader_iters : Option (Container (LoaderIter α))
deriving DecidableEq, Repr

/-- `CombinedLoader.__iter__` returns `CombinedLoaderIterator(self.loaders)`. -/
def CombinedLoader.iter (cl : CombinedLoader α) : CombinedLoaderIterator α :=
  { loaders := cl.loaders, loader_iters := none }

/-- `CombinedLoaderIterator.__next__`: materialise the leaf iterators on
first use (the `loader_iters` property), then `request_next_batch`. -/
def CombinedLoaderIterator.next (s : CombinedLoaderIterator α) :
    Except PyErr (Container α) × CombinedLoaderIterator α :=
  let its := s.loader_iters.getD (create_loader_iters s.loaders)
  match request_next_batch its with
  | (r, its') => (r, { s with loader_iters := some its' })

/-- Run a session for `n` calls to `next()`: `some` final iterator container
when all `n` calls succeed, `none` if any of them raises. -/
def runNexts : Nat → Container (LoaderIter α) → Option (Container (LoaderIter α))
  | 0, its => some its
  | n + 1, its =>
    match request_next_batch its with
    | (.ok _, its') => runNexts n its'
    | (.error _, _) => none

/-- Run successful `CycleIterator.__next__` calls `n` times. -/
def cycleRun : Nat → CycleIterator α → Option (CycleIterator α)
  | 0, c => some c
  | n + 1, c =>
    match c.next with
    | (.ok _, c') => cycleRun n c'
    | (.error _, _) => none

/-- The session object after `k` calls to `CombinedLoaderIterator.__next__`:
each call advances the lazily created iterator container, whether the call
returned a batch or raised. -/
def sessionAfter : Nat → CombinedLoaderIterator α → CombinedLoaderIterator α
  | 0, s => s
  | k + 1, s => sessionAfter k (s.next).2

/-- The declared lengths of the leaf sources of a container. -/
def leafLens (srcs : Container (Source α)) : List Nat :=
  srcs.leaves.map fun s => s.data.length

theorem Container.sameShape_refl (c : Container α) : c.sameShape c := by
  cases c <;> simp [Container.sameShape]

theorem Container.sameShape_trans {a : Container α} {b : Container β} {c : Container γ}
    (hab : a.sameShape b) (hbc : b.sameShape c) : a.sameShape c := by
  cases a <;> cases b <;> cases c <;> simp_all [Container.sameShape]

theorem Container.leaves_applyToCollection (f : α → β) (c : Container α) :
    (c.applyToCollection f).leaves = c.leaves.map f := by
  cases c with
  | single a => rfl
  | seq xs => rfl
  | map kvs =>
    simp only [Container.applyToCollection, Container.leaves, List.map_map]
    rfl

theorem Container.sameShape_applyToCollection (f : α → β) (c : Container α) :
    (c.applyToCollection f).sameShape c := by
  cases c with
  | single a => trivial
  | seq xs => simp [Container.applyToCollection, Container.sameShape]
  | map kvs =>
    simp only [Container.applyToCollection, Container.sameShape, List.map_map]
    rfl

theorem Container.leaves_ne_nil_iff (c : Container α) :
    c.leaves ≠ [] ↔ c.leaves.length ≠ 0 := by
  cases c <;> simp [Container.leaves]

theorem pyFoldMin_fin (a : Nat) (ns : List Nat) :
    pyFoldMin (.fin a) (ns.map .fin) = .fin (ns.foldl Nat.min a) := by
  induction ns generalizing a with
  | nil => rfl
  | cons b t ih =>
    simp only [List.map_cons, pyFoldMin, List.foldl_cons] at *
    have hstep : (if (Length.fin b).lt (.fin a) then Length.fin b else .fin a)
        = .fin (Nat.min a b) := by
      simp only [Length.lt]
      split
      · rename_i h
        simp only [decide_eq_true_eq] at h
        have : Nat.min a b = b := by unfold Nat.min; exact min_eq_right (le_of_lt h)
        rw [this]
      · rename_i h
        simp only [decide_eq_true_eq] at h
        have : Nat.min a b = a := by unfold Nat.min; exact min_eq_left (by omega)
        rw [this]
    rw [hstep]
    exact ih (Nat.min a b)

theorem pyFoldMax_fin (a : Nat) (ns : List Nat) :
    pyFoldMax (.fin a) (ns.map .fin) = .fin (ns.foldl Nat.max a) := by
  induction ns generalizing a with
  | nil => rfl
  | cons b t ih =>
    simp only [List.map_cons, pyFoldMax, List.foldl_cons] at *
    have hstep : (if (Length.fin a).lt (.fin b) then Length.fin b else .fin a)
        = .fin (Nat.max a b) := by
      simp only [Length.lt]
      split
      · rename_i h
        simp only [decide_eq_true_eq] at h
        have : Nat.max a b = b := by unfold Nat.max; exact max_eq_right (le_of_lt h)
        rw [this]
      · rename_i h
        simp only [decide_eq_true_eq] at h
        have : Nat.max a b = a := by unfold Nat.max; exact max_eq_left (by omega)
        rw [this]
    rw [hstep]
    exact ih (Nat.max a b)

theorem foldl_min_eq (ns : List Nat) (a n : Nat)
    (hmem : n = a ∨ n ∈ ns) (hle : n ≤ a) (hlb : ∀ m ∈ ns, n ≤ m) :
    ns.foldl Nat.min a = n := by
  induction ns generalizing a with
  | nil =>
    simp only [List.foldl_nil]
    rcases hmem with h | h
    · omega
    · cases h
  | cons b t ih =>
    simp only [List.foldl_cons]
    have hb : n ≤ b := hlb b (List.mem_cons_self b t)
    have hmin : n ≤ Nat.min a b := by unfold Nat.min; exact le_min hle hb
    have htail : ∀ m ∈ t, n ≤ m := fun m hm => hlb m (List.mem_cons_of_mem b hm)
    rcases hmem with h | h
    · subst h
      have : n = Nat.min n b := by unfold Nat.min; exact (min_eq_left hb).symm
      exact ih (Nat.min n b) (Or.inl this) hmin htail
    · rcases List.mem_cons.1 h with h | h
      · subst h
        have : n = Nat.min a n := by unfold Nat.min; exact (min_eq_right hle).symm
        exact ih (Nat.min a n) (Or.inl this) hmin htail
      · exact ih (Nat.min a b) (Or.inr h) hmin htail

theorem foldl_max_eq (ns : List Nat) (a n : Nat)
    (hmem : n = a ∨ n ∈ ns) (hle : a ≤ n) (hub : ∀ m ∈ ns, m ≤ n) :
    ns.foldl Nat.max a = n := by
  induction ns generalizing a with
  | nil =>
    simp only [List.foldl_nil]
    rcases hmem with h | h
    · omega
    · cases h
  | cons b t ih =>
    simp only [List.foldl_cons]
    have hb : b ≤ n := hub b (List.mem_cons_self b t)
    have hmax : Nat.max a b ≤ n := by unfold Nat.max; exact max_le hle hb
    have htail : ∀ m ∈ t, m ≤ n := fun m hm => hub m (List.mem_cons_of_mem b hm)
    rcases hmem with h | h
    · subst h
      have : n = Nat.max n b := by unfold Nat.max; exact (max_eq_left hb).symm
      exact ih (Nat.max n b) (Or.inl this) hmax htail
    · rcases List.mem_cons.1 h with h | h
      · subst h
        have : n = Nat.max a n := by unfold Nat.max; exact (max_eq_right hle).symm
        exact ih (Nat.max a n) (Or.inl this) hmax htail
      · exact ih (Nat.max a b) (Or.inr h) hmax htail

/-- Python `min` over the `Length.fin` images of a list of naturals containing
its lower bound `n` returns `n`. -/
theorem pyMin_fin (ns : List Nat) (n : Nat) (hmem : n ∈ ns) (hlb : ∀ m ∈ ns, n ≤ m) :
    pyMin (ns.map .fin) = .ok (.fin n) := by
  cases ns with
  | nil => cases hmem
  | cons a t =>
    simp only [List.map_cons, pyMin, pyFoldMin_fin]
    rcases List.mem_cons.1 hmem with h | h
    · rw [foldl_min_eq t a n (by left; omega) (by omega) fun m hm => hlb m (by simp [hm])]
    · rw [foldl_min_eq t a n (by right; exact h) (hlb a (by simp)) fun m hm => hlb m (by simp [hm])]

/-- Python `max` over the `Length.fin` images of a list of naturals containing
its upper bound `L` returns `L`. -/
theorem pyMax_fin (ns : List Nat) (L : Nat) (hmem : L ∈ ns) (hub : ∀ m ∈ ns, m ≤ L) :
    pyMax (ns.map .fin) = .ok (.fin L) := by
  cases ns with
  | nil => cases hmem
  | cons a t =>
    simp only [List.map_cons, pyMax, pyFoldMax_fin]
    rcases List.mem_cons.1 hmem with h | h
    · rw [foldl_max_eq t a L (by left; omega) (by omega) fun m hm => hub m (by simp [hm])]
    · rw [foldl_max_eq t a L (by right; exact h) (hub a (by simp)) fun m hm => hub m (by simp [hm])]

theorem Source.pull_ok {s : Source α} (hall : s.allVal = true) {i : Nat}
    (hi : i < s.data.length) : ∃ x, s.pull i = (.ok x, i + 1) := by
  cases hx : s.data.get? i with
  | none =>
    have := List.get?_eq_none.1 hx
    omega
  | some p =>
    have hmem : p ∈ s.data := List.get?_mem hx
    have hv := List.all_eq_true.1 hall p hmem
    cases p with
    | val x =>
      refine ⟨x, ?_⟩
      unfold Source.pull
      rw [hx]
    | err => simp at hv

theorem Source.pull_stop {s : Source α} {i : Nat} (hi : s.data.length ≤ i) :
    s.pull i = (.error .stopIteration, i) := by
  have hx : s.data.get? i = none := List.get?_eq_none.2 hi
  unfold Source.pull
  rw [hx]

theorem Source.pull_ok_or_stop {s : Source α} (hall : s.allVal = true) (i : Nat) :
    (∃ x, (s.pull i).1 = .ok x) ∨ (s.pull i).1 = .error .stopIteration := by
  rcases Nat.lt_or_ge i s.data.length with h | h
  · rcases Source.pull_ok hall h with ⟨x, hx⟩
    exact Or.inl ⟨x, by rw [hx]⟩
  · exact Or.inr (by rw [Source.pull_stop h])

theorem requestSeq_ok (its : List (LoaderIter α))
    (h : ∀ it ∈ its, ∃ x, (it.next).1 = .ok x) :
    ∃ xs, requestSeq its = (.ok xs, its.map fun it => (it.next).2) ∧
      List.Forall₂ (fun it x => (LoaderIter.next it).1 = .ok x) its xs := by
  induction its with
  | nil => exact ⟨[], rfl, List.Forall₂.nil⟩
  | cons it rest ih =>
    rcases h it (List.mem_cons_self it rest) with ⟨x, hx⟩
    rcases ih (fun j hj => h j (List.mem_cons_of_mem it hj)) with ⟨xs, hr, hf⟩
    cases hnext : it.next with
    | mk r it' =>
      rw [hnext] at hx
      simp only at hx
      subst hx
      refine ⟨x :: xs, ?_, List.Forall₂.cons (by rw [hnext]) hf⟩
      simp only [requestSeq, hnext, hr, List.map_cons]

theorem requestSeq_stop (its : List (LoaderIter α))
    (hok : ∀ it ∈ its, (∃ x, (it.next).1 = .ok x) ∨ (it.next).1 = .error .stopIteration)
    (hex : ∃ it ∈ its, (it.next).1 = .error .stopIteration) :
    (requestSeq its).1 = .error .stopIteration := by
  induction its with
  | nil =>
    rcases hex with ⟨it, hmem, _⟩
    cases hmem
  | cons it rest ih =>
    cases hnext : it.next with
    | mk r it' =>
      cases r with
      | error e =>
        have he : e = .stopIteration := by
          rcases hok it (List.mem_cons_self it rest) with ⟨x, hx⟩ | hs
          · rw [hnext] at hx
            cases hx
          · rw [hnext] at hs
            cases hs
            rfl
        subst he
        simp only [requestSeq, hnext]
      | ok x =>
        have hex' : ∃ j ∈ rest, (j.next).1 = .error .stopIteration := by
          rcases hex with ⟨j, hj, hjs⟩
          rcases List.mem_cons.1 hj with rfl | hj'
          · rw [hnext] at hjs
            cases hjs
          · exact ⟨j, hj', hjs⟩
        have hr := ih (fun j hj => hok j (List.mem_cons_of_mem it hj)) hex'
        cases hrest : requestSeq rest with
        | mk rr rest' =>
          rw [hrest] at hr
          simp only at hr
          subst hr
          simp only [requestSeq, hnext, hrest]

theorem requestSeq_first_fail (pre : List (LoaderIter α)) (it0 : LoaderIter α)
    (post : List (LoaderIter α)) (e : PyErr)
    (hpre : ∀ it ∈ pre, ∃ x, (it.next).1 = .ok x)
    (hfail : (it0.next).1 = .error e) :
    (requestSeq (pre ++ it0 :: post)).1 = .error e := by
  induction pre with
  | nil =>
    cases hnext : it0.next with
    | mk r it' =>
      rw [hnext] at hfail
      simp only at hfail
      subst hfail
      simp only [List.nil_append, requestSeq, hnext]
  | cons it rest ih =>
    rcases hpre it (List.mem_cons_self it rest) with ⟨x, hx⟩
    cases hnext : it.next with
    | mk r it' =>
      rw [hnext] at hx
      simp only at hx
      subst hx
      have hr := ih fun j hj => hpre j (List.mem_cons_of_mem it hj)
      cases hrest : requestSeq (rest ++ it0 :: post) with
      | mk rr rest' =>
        rw [hrest] at hr
        simp only at hr
        subst hr
        simp only [List.cons_append, requestSeq, hnext, List.append_eq, hrest]

theorem requestMap_ok (kvs : List (String × LoaderIter α))
    (h : ∀ kv ∈ kvs, ∃ x, (LoaderIter.next kv.2).1 = .ok x) :
    ∃ xs, requestMap kvs = (.ok xs, kvs.map fun kv => (kv.1, (LoaderIter.next kv.2).2)) ∧
      xs.map Prod.fst = kvs.map Prod.fst ∧
      List.Forall₂ (fun it x => (LoaderIter.next it).1 = .ok x)
        (kvs.map Prod.snd) (xs.map Prod.snd) := by
  induction kvs with
  | nil => exact ⟨[], rfl, rfl, List.Forall₂.nil⟩
  | cons kv rest ih =>
    obtain ⟨k, it⟩ := kv
    rcases h (k, it) (List.mem_cons_self _ rest) with ⟨x, hx⟩
    rcases ih (fun j hj => h j (List.mem_cons_of_mem _ hj)) with ⟨xs, hr, hkeys, hf⟩
    cases hnext : it.next with
    | mk r it' =>
      rw [hnext] at hx
      simp only at hx
      subst hx
      refine ⟨(k, x) :: xs, ?_, by simp [hkeys], ?_⟩
      · simp only [requestMap, hnext, hr, List.map_cons]
      · simp only [List.map_cons]
        exact List.Forall₂.cons (by rw [hnext]) hf

theorem requestMap_stop (kvs : List (String × LoaderIter α))
    (hok : ∀ kv ∈ kvs, (∃ x, (LoaderIter.next kv.2).1 = .ok x) ∨
      (LoaderIter.next kv.2).1 = .error .stopIteration)
    (hex : ∃ kv ∈ kvs, (LoaderIter.next kv.2).1 = .error .stopIteration) :
    (requestMap kvs).1 = .error .stopIteration := by
  induction kvs with
  | nil =>
    rcases hex with ⟨kv, hmem, _⟩
    cases hmem
  | cons kv rest ih =>
    obtain ⟨k, it⟩ := kv
    cases hnext : it.next with
    | mk r it' =>
      cases r with
      | error e =>
        have he : e = .stopIteration := by
          rcases hok (k, it) (List.mem_cons_self _ rest) with ⟨x, hx⟩ | hs
          · rw [hnext] at hx
            cases hx
          · rw [hnext] at hs
            cases hs
            rfl
        subst he
        simp only [requestMap, hnext]
      | ok x =>
        have hex' : ∃ j ∈ rest, (LoaderIter.next j.2).1 = .error .stopIteration := by
          rcases hex with ⟨j, hj, hjs⟩
          rcases List.mem_cons.1 hj with rfl | hj'
          · rw [hnext] at hjs
            cases hjs
          · exact ⟨j, hj', hjs⟩
        have hr := ih (fun j hj => hok j (List.mem_cons_of_mem _ hj)) hex'
        cases hrest : requestMap rest with
        | mk rr rest' =>
          rw [hrest] at hr
          simp only at hr
          subst hr
          simp only [requestMap, hnext, hrest]

theorem requestMap_first_fail (kpre : List (String × LoaderIter α)) (k0 : String)
    (it0 : LoaderIter α) (kpost : List (String × LoaderIter α)) (e : PyErr)
    (hpre : ∀ kv ∈ kpre, ∃ x, (LoaderIter.next kv.2).1 = .ok x)
    (hfail : (it0.next).1 = .error e) :
    (requestMap (kpre ++ (k0, it0) :: kpost)).1 = .error e := by
  induction kpre with
  | nil =>
    cases hnext : it0.next with
    | mk r it' =>
      rw [hnext] at hfail
      simp only at hfail
      subst hfail
      simp only [List.nil_append, requestMap, hnext]
  | cons kv rest ih =>
    obtain ⟨k, it⟩ := kv
    rcases hpre (k, it) (List.mem_cons_self _ rest) with ⟨x, hx⟩
    cases hnext : it.next with
    | mk r it' =>
      rw [hnext] at hx
      simp only at hx
      subst hx
      have hr := ih fun j hj => hpre j (List.mem_cons_of_mem _ hj)
      cases hrest : requestMap (rest ++ (k0, it0) :: kpost) with
      | mk rr rest' =>
        rw [hrest] at hr
        simp only at hr
        subst hr
        simp only [List.cons_append, requestMap, hnext, List.append_eq, hrest]

theorem request_next_batch_ok (its : Container (LoaderIter α))
    (h : ∀ it ∈ its.leaves, ∃ x, (it.next).1 = .ok x) :
    ∃ b its', request_next_batch its = (.ok b, its') ∧
      b.sameShape its ∧ its'.sameShape its ∧
      its'.leaves = its.leaves.map (fun it => (it.next).2) ∧
      List.Forall₂ (fun it x => (LoaderIter.next it).1 = .ok x) its.leaves b.leaves := by
  cases its with
  | single it =>
    rcases h it (List.mem_singleton.2 rfl) with ⟨x, hx⟩
    cases hnext : it.next with
    | mk r it' =>
      rw [hnext] at hx
      simp only at hx
      subst hx
      refine ⟨.single x, .single it', ?_, trivial, trivial, ?_, ?_⟩
      · simp [request_next_batch, hnext, Except.map]
      · simp [Container.leaves, hnext]
      · exact List.Forall₂.cons (by rw [hnext]) List.Forall₂.nil
  | seq xs =>
    rcases requestSeq_ok xs h with ⟨ys, hr, hf⟩
    refine ⟨.seq ys, .seq (xs.map fun it => (LoaderIter.next it).2), ?_, ?_, ?_, ?_, hf⟩
    · simp [request_next_batch, hr, Except.map]
    · exact (List.Forall₂.length_eq hf).symm
    · simp [Container.sameShape]
    · rfl
  | map kvs =>
    have h' : ∀ kv ∈ kvs, ∃ x, (LoaderIter.next kv.2).1 = .ok x := fun kv hkv =>
      h kv.2 (List.mem_map_of_mem Prod.snd hkv)
    rcases requestMap_ok kvs h' with ⟨ys, hr, hkeys, hf⟩
    refine ⟨.map ys, .map (kvs.map fun kv => (kv.1, (LoaderIter.next kv.2).2)),
      ?_, hkeys, ?_, ?_, hf⟩
    · simp [request_next_batch, hr, Except.map]
    · simp only [Container.sameShape, List.map_map]
      rfl
    · simp only [Container.leaves, List.map_map]
      rfl

theorem request_next_batch_stop (its : Container (LoaderIter α))
    (hok : ∀ it ∈ its.leaves,
      (∃ x, (it.next).1 = .ok x) ∨ (it.next).1 = .error .stopIteration)
    (hex : ∃ it ∈ its.leaves, (it.next).1 = .error .stopIteration) :
    (request_next_batch its).1 = .error .stopIteration := by
  cases its with
  | single it =>
    rcases hex with ⟨j, hj, hjs⟩
    have : j = it := List.mem_singleton.1 hj
    subst this
    cases hnext : j.next with
    | mk r it' =>
      rw [hnext] at hjs
      simp only at hjs
      subst hjs
      simp [request_next_batch, hnext, Except.map]
  | seq xs =>
    have hs := requestSeq_stop xs hok hex
    cases hrest : requestSeq xs with
    | mk rr rest' =>
      rw [hrest] at hs
      simp only at hs
      subst hs
      simp [request_next_batch, hrest, Except.map]
  | map kvs =>
    have hok' : ∀ kv ∈ kvs, (∃ x, (LoaderIter.next kv.2).1 = .ok x) ∨
        (LoaderIter.next kv.2).1 = .error .stopIteration := fun kv hkv =>
      hok kv.2 (List.mem_map_of_mem Prod.snd hkv)
    have hex' : ∃ kv ∈ kvs, (LoaderIter.next kv.2).1 = .error .stopIteration := by
      rcases hex with ⟨j, hj, hjs⟩
      rcases List.mem_map.1 hj with ⟨kv, hkv, hkvj⟩
      exact ⟨kv, hkv, by rw [hkvj]; exact hjs⟩
    have hs := requestMap_stop kvs hok' hex'
    cases hrest : requestMap kvs with
    | mk rr rest' =>
      rw [hrest] at hs
      simp only at hs
      subst hs
      simp [request_next_batch, hrest, Except.map]

theorem request_next_batch_first_fail (its : Container (LoaderIter α))
    (pre post : List (LoaderIter α)) (it0 : LoaderIter α) (e : PyErr)
    (hsplit : its.leaves = pre ++ it0 :: post)
    (hpre : ∀ it ∈ pre, ∃ x, (it.next).1 = .ok x)
    (hfail : (it0.next).1 = .error e) :
    (request_next_batch its).1 = .error e := by
  cases its with
  | single it =>
    have hlen := congrArg List.length hsplit
    simp [Container.leaves] at hlen
    have hp : pre = [] := List.length_eq_zero.1 (by omega)
    subst hp
    have hit : it = it0 := by
      simp only [Container.leaves, List.nil_append] at hsplit
      exact (List.cons_eq_cons.1 hsplit).1
    subst hit
    cases hnext : it.next with
    | mk r it' =>
      rw [hnext] at hfail
      simp only at hfail
      subst hfail
      simp [request_next_batch, hnext, Except.map]
  | seq xs =>
    have hx : xs = pre ++ it0 :: post := hsplit
    subst hx
    have hs := requestSeq_first_fail pre it0 post e hpre hfail
    cases hrest : requestSeq (pre ++ it0 :: post) with
    | mk rr rest' =>
      rw [hrest] at hs
      simp only at hs
      subst hs
      simp [request_next_batch, hrest, Except.map]
  | map kvs =>
    have hsplit' : kvs.map Prod.snd = pre ++ it0 :: post := hsplit
    rcases List.append_eq_map_iff.1 hsplit'.symm with ⟨l1, l2, hkvs, hl1, hl2⟩
    cases l2 with
    | nil => cases hl2
    | cons kv0 l2' =>
      simp only [List.map_cons] at hl2
      have hkv0 : kv0.2 = it0 := (List.cons_eq_cons.1 hl2).1
      have hkv0' : kv0 = (kv0.1, it0) := by
        cases kv0
        simp_all
      have hpre' : ∀ kv ∈ l1, ∃ x, (LoaderIter.next kv.2).1 = .ok x := fun kv hkv =>
        hpre kv.2 (hl1 ▸ List.mem_map_of_mem Prod.snd hkv)
      have hs := requestMap_first_fail l1 kv0.1 it0 l2' e hpre' hfail
      rw [hkvs, hkv0']
      cases hrest : requestMap (l1 ++ (kv0.1, it0) :: l2') with
      | mk rr rest' =>
        rw [hrest] at hs
        simp only at hs
        subst hs
        simp [request_next_batch, hrest, Except.map]

/-- Invariant of one leaf iterator in a longest-cycles session with shared
budget `L`, after `k` successful rounds: a raw-source leaf sits at position
`k` of a well-behaved stream of declared length `L`; a cycle-wrapped leaf
has produced `k` elements against budget `L` over a nonempty well-behaved
loader with a live inner iterator at a position not past the end. -/
def GoodAt (L k : Nat) : LoaderIter α → Prop
  | .src s i => i = k ∧ s.allVal = true ∧ s.data.length = L
  | .cyc c => c.counter = k ∧ c.length = .fin L ∧ c.loader.allVal = true ∧
      1 ≤ c.loader.data.length ∧ ∃ j, j ≤ c.loader.data.length ∧ c.loader_iter = some j

theorem goodAt_step {L k : Nat} {it : LoaderIter α} (hk : k < L) (h : GoodAt L k it) :
    ∃ x it', it.next = (.ok x, it') ∧ GoodAt L (k + 1) it' := by
  cases it with
  | src s i =>
    obtain ⟨rfl, hall, hlen⟩ := h
    rcases Source.pull_ok hall (show i < s.data.length by omega) with ⟨x, hx⟩
    exact ⟨x, .src s (i + 1), by simp [LoaderIter.next, hx], rfl, hall, hlen⟩
  | cyc c =>
    obtain ⟨hc, hlen, hall, hne, j, hj, hit⟩ := h
    have hbud : c.length.leNat c.counter = false := by
      rw [hlen, hc]
      simp [Length.leNat]
      omega
    rcases Nat.lt_or_ge j c.loader.data.length with hjl | hjl
    · rcases Source.pull_ok hall hjl with ⟨x, hx⟩
      refine ⟨x, .cyc { c with loader_iter := some (j + 1), counter := c.counter + 1 },
        ?_, ?_⟩
      · simp [LoaderIter.next, CycleIterator.next, hbud, hit, hx]
      · exact ⟨by simp [hc], by simp [hlen], hall, hne, j + 1, by simp; omega, rfl⟩
    · have hstop : c.loader.pull j = (.error .stopIteration, j) := Source.pull_stop hjl
      rcases Source.pull_ok hall (show 0 < c.loader.data.length by omega) with ⟨x, hx⟩
      refine ⟨x, .cyc { c with loader_iter := some 1, counter := c.counter + 1 }, ?_, ?_⟩
      · simp [LoaderIter.next, CycleIterator.next, hbud, hit, hstop, hx]
      · exact ⟨by simp [hc], by simp [hlen], hall, hne, 1, by simp; omega, rfl⟩

theorem goodAt_stop {L : Nat} {it : LoaderIter α} (h : GoodAt L L it) :
    (it.next).1 = .error .stopIteration := by
  cases it with
  | src s i =>
    obtain ⟨rfl, hall, hlen⟩ := h
    have hstop : s.pull i = (.error .stopIteration, i) := Source.pull_stop (by omega)
    simp [LoaderIter.next, hstop]
  | cyc c =>
    obtain ⟨hc, hlen, _⟩ := h
    have hbud : c.length.leNat c.counter = true := by
      rw [hlen, hc]
      simp [Length.leNat]
    simp [LoaderIter.next, CycleIterator.next, hbud]

theorem runNexts_pred (P : Nat → LoaderIter α → Prop) (N : Nat)
    (hstep : ∀ k it, k < N → P k it → ∃ x it', LoaderIter.next it = (.ok x, it') ∧ P (k + 1) it') :
    ∀ (m k : Nat) (its : Container (LoaderIter α)), k + m ≤ N →
      (∀ it ∈ its.leaves, P k it) →
      ∃ its', runNexts m its = some its' ∧ (∀ it ∈ its'.leaves, P (k + m) it) ∧
        its'.sameShape its := by
  intro m
  induction m with
  | zero =>
    intro k its _ h
    exact ⟨its, rfl, by simpa using h, Container.sameShape_refl its⟩
  | succ m ih =>
    intro k its hkm h
    have hok : ∀ it ∈ its.leaves, ∃ x, (LoaderIter.next it).1 = .ok x := by
      intro it hmem
      rcases hstep k it (by omega) (h it hmem) with ⟨x, it', hn, _⟩
      exact ⟨x, by rw [hn]⟩
    rcases request_next_batch_ok its hok with ⟨b, its1, hreq, _, hshape, hleaves, _⟩
    have h1 : ∀ it ∈ its1.leaves, P (k + 1) it := by
      intro it hmem
      rw [hleaves] at hmem
      rcases List.mem_map.1 hmem with ⟨j, hj, rfl⟩
      rcases hstep k j (by omega) (h j hj) with ⟨x, it', hn, hp⟩
      rw [hn]
      exact hp
    rcases ih (k + 1) its1 (by omega) h1 with ⟨its', hrun, hP, hsh⟩
    refine ⟨its', ?_, ?_, Container.sameShape_trans hsh hshape⟩
    · simp only [runNexts, hreq]
      exact hrun
    · have heq : k + (m + 1) = (k + 1) + m := by omega
      rw [heq]
      exact hP

theorem runNexts_src (items : List (Source α)) (hall : ∀ s ∈ items, s.allVal = true) :
    ∀ (m k : Nat) (its : Container (LoaderIter α)),
      (∀ s ∈ items, k + m ≤ s.data.length) →
      its.leaves = items.map (fun s => .src s k) →
      ∃ its', runNexts m its = some its' ∧
        its'.leaves = items.map (fun s => .src s (k + m)) ∧ its'.sameShape its := by
  intro m
  induction m with
  | zero =>
    intro k its _ hleaf
    exact ⟨its, rfl, by simpa using hleaf, Container.sameShape_refl its⟩
  | succ m ih =>
    intro k its hlen hleaf
    have hok : ∀ it ∈ its.leaves, ∃ x, (LoaderIter.next it).1 = .ok x := by
      intro it hmem
      rw [hleaf] at hmem
      rcases List.mem_map.1 hmem with ⟨s, hs, rfl⟩
      rcases Source.pull_ok (hall s hs) (show k < s.data.length by
        have := hlen s hs; omega) with ⟨x, hx⟩
      exact ⟨x, by simp [LoaderIter.next, hx]⟩
    rcases request_next_batch_ok its hok with ⟨b, its1, hreq, _, hshape, hleaves, _⟩
    have hleaf1 : its1.leaves = items.map (fun s => .src s (k + 1)) := by
      rw [hleaves, hleaf, List.map_map]
      refine List.map_congr_left fun s hs => ?_
      rcases Source.pull_ok (hall s hs) (show k < s.data.length by
        have := hlen s hs; omega) with ⟨x, hx⟩
      simp [LoaderIter.next, hx]
    rcases ih (k + 1) its1 (fun s hs => by have := hlen s hs; omega) hleaf1 with
      ⟨its', hrun, hl, hsh⟩
    refine ⟨its', ?_, ?_, Container.sameShape_trans hsh hshape⟩
    · simp only [runNexts, hreq]
      exact hrun
    · have heq : k + (m + 1) = (k + 1) + m := by omega
      rw [heq]
      exact hl

theorem cycle_next_ok_state {c : CycleIterator α} {x : α} {c' : CycleIterator α}
    (h : c.next = (.ok x, c')) :
    c'.counter = c.counter + 1 ∧ c'.length = c.length ∧ c'.loader = c.loader ∧
    c.length.leNat c.counter = false := by
  obtain ⟨len, loader, lit, cnt⟩ := c
  unfold CycleIterator.next at h
  dsimp only at h ⊢
  split at h
  · simp at h
  · rename_i hbud
    have hbud' : Length.leNat len cnt = false := by
      cases hb : Length.leNat len cnt with
      | false => rfl
      | true => exact absurd hb hbud
    cases lit with
    | none => simp at h
    | some i =>
      dsimp only at h
      cases hp : loader.pull i with
      | mk r i' =>
        rw [hp] at h
        cases r with
        | ok y =>
          injection h with h1 h2
          subst h2
          exact ⟨rfl, rfl, rfl, hbud'⟩
        | error e =>
          cases e with
          | stopIteration =>
            cases hp0 : loader.pull 0 with
            | mk r0 i0 =>
              rw [hp0] at h
              cases r0 with
              | ok y =>
                injection h with h1 h2
                subst h2
                exact ⟨rfl, rfl, rfl, hbud'⟩
              | error e0 => simp at h
          | misconfiguration m => simp at h
          | valueError => simp at h
          | typeError => simp at h
          | otherError => simp at h

theorem cycle_next_stop_of_budget {c : CycleIterator α}
    (h : c.length.leNat c.counter = true) :
    c.next = (.error .stopIteration, c) := by
  unfold CycleIterator.next
  rw [h]
  simp

theorem cycleRun_budget {b : Nat} :
    ∀ (k : Nat) (c c' : CycleIterator α), c.length = .fin b →
      cycleRun k c = some c' → 1 ≤ k → c.counter + k ≤ b := by
  intro k
  induction k with
  | zero =>
    intro c c' _ _ h1
    omega
  | succ k ih =>
    intro c c' hb hrun _
    cases hnext : c.next with
    | mk r c1 =>
      simp only [cycleRun, hnext] at hrun
      cases r with
      | error e => simp at hrun
      | ok x =>
        obtain ⟨hc1, hlen1, _, hbud⟩ := cycle_next_ok_state hnext
        have hlt : c.counter < b := by
          rw [hb] at hbud
          simpa [Length.leNat] using hbud
        cases k with
        | zero => omega
        | succ k0 =>
          have hb1 : c1.length = .fin b := by rw [hlen1, hb]
          have := ih c1 c' hb1 hrun (by omega)
          omega

theorem cycle_next_inf_ok {c : CycleIterator α} (hinf : c.length = .inf)
    (hall : c.loader.allVal = true) (hne : c.loader.data ≠ []) {i : Nat}
    (hit : c.loader_iter = some i) : ∃ x c', c.next = (.ok x, c') := by
  have hbud : c.length.leNat c.counter = false := by rw [hinf]; rfl
  rcases Nat.lt_or_ge i c.loader.data.length with hlt | hge
  · rcases Source.pull_ok hall hlt with ⟨x, hx⟩
    refine ⟨x, { c with loader_iter := some (i + 1), counter := c.counter + 1 }, ?_⟩
    simp [CycleIterator.next, hbud, hit, hx]
  · have h0 : 0 < c.loader.data.length := List.length_pos.2 hne
    rcases Source.pull_ok hall h0 with ⟨x, hx⟩
    have hstop := Source.pull_stop hge
    refine ⟨x, { c with loader_iter := some 1, counter := c.counter + 1 }, ?_⟩
    simp [CycleIterator.next, hbud, hit, hstop, hx]

/-- C4: for a `CycleIterator` with finite budget `b`, a run of successful
`next()` calls after `__iter__` has length at most `b`; once the counter has
reached the budget, `next()` raises `StopIteration` without mutating the
state; every successful `next()` increments the counter by exactly one (on
the direct path and on the restart path alike); and with an unbounded budget
the wrapper never raises on its own: over a nonempty well-behaved loader,
`next()` always succeeds. -/
theorem cycleIterator_budget_bound (c : CycleIterator α) :
    (∀ b : Nat, c.length = .fin b →
      ((∀ k c', cycleRun k c.beginIter = some c' → k ≤ b) ∧
        (Length.leNat c.length c.counter = true →
          c.next = (.error .stopIteration, c)))) ∧
    (∀ x c', c.next = (.ok x, c') → c'.counter = c.counter + 1) ∧
    (c.length = .inf → c.loader.allVal = true → c.loader.data ≠ [] →
      ∀ i, c.loader_iter = some i → ∃ x c', c.next = (.ok x, c')) := by
  refine ⟨fun b hb => ⟨fun k c' hrun => ?_, fun hbud => cycle_next_stop_of_budget hbud⟩,
    fun x c' h => (cycle_next_ok_state h).1,
    fun hinf hall hne i hit => cycle_next_inf_ok hinf hall hne hit⟩
  cases k with
  | zero => omega
  | succ k0 =>
    have hb' : c.beginIter.length = .fin b := hb
    have := cycleRun_budget (k0 + 1) c.beginIter c' hb' hrun (by omega)
    simpa [CycleIterator.beginIter] using this

/-- C4 witness: a budget-3 cycle over a two-element loader admits a 3-call
run but no 4-call run, and its first `next()` bumps the counter to 1. -/
theorem cycleIterator_budget_bound_witness :
    ((CycleIterator.init { data := [Pull.val (10 : Nat), Pull.val 11], dataset := .fin 2 }
        (some (.fin 3))).length = .fin 3) ∧
    (∀ k c', cycleRun k (CycleIterator.init
        { data := [Pull.val (10 : Nat), Pull.val 11], dataset := .fin 2 }
        (some (.fin 3))).beginIter = some c' → k ≤ 3) := by
  refine ⟨rfl, ?_⟩
  exact ((cycleIterator_budget_bound (CycleIterator.init
    { data := [Pull.val (10 : Nat), Pull.val 11], dataset := .fin 2 }
    (some (.fin 3)))).1 3 rfl).1

/-- C5: while the budget is not reached, exactly the wrapped source's
exhaustion signal triggers a restart: the result is then a single pull of
the first element of a brand-new iterator (so an empty source propagates
`StopIteration`), while a non-exhaustion error from the source propagates
unretried, with no restart. -/
theorem cycleIterator_restart_only_on_exhaustion (c : CycleIterator α) (i : Nat)
    (hit : c.loader_iter = some i) (hbud : Length.leNat c.length c.counter = false) :
    (c.loader.data.length ≤ i →
      c.next = ((c.loader.pull 0).1,
        { c with loader_iter := some (c.loader.pull 0).2, counter := c.counter + 1 }) ∧
      (c.loader.data = [] → (c.next).1 = .error .stopIteration)) ∧
    (c.loader.data.get? i = some .err →
      c.next = (.error .otherError,
        { c with loader_iter := some (i + 1), counter := c.counter + 1 })) := by
  constructor
  · intro hge
    have hstop := Source.pull_stop hge
    have hmain : c.next = ((c.loader.pull 0).1,
        { c with loader_iter := some (c.loader.pull 0).2, counter := c.counter + 1 }) := by
      unfold CycleIterator.next
      rw [hbud]
      simp only [Bool.false_eq_true, if_false, hit, hstop]
    refine ⟨hmain, fun hnil => ?_⟩
    rw [hmain]
    have : c.loader.pull 0 = (.error .stopIteration, 0) :=
      Source.pull_stop (by rw [hnil]; simp)
    rw [this]
  · intro herr
    have hp : c.loader.pull i = (.error .otherError, i + 1) := by
      unfold Source.pull
      rw [herr]
    unfold CycleIterator.next
    rw [hbud]
    simp only [Bool.false_eq_true, if_false, hit, hp]

/-- C5 witness: at position 2 of a two-element loader with budget 5 the
wrapper restarts and returns the first element again, and an erroring entry
propagates its own error without a restart. -/
theorem cycleIterator_restart_only_on_exhaustion_witness :
    ((CycleIterator.mk (.fin 5) (Source.mk [Pull.val (10 : Nat), Pull.val 11] (.fin 2))
        (some 2) 2).next =
      (.ok 10, CycleIterator.mk (.fin 5)
        (Source.mk [Pull.val (10 : Nat), Pull.val 11] (.fin 2)) (some 1) 3)) ∧
    ((CycleIterator.mk (.fin 5) (Source.mk [Pull.err, Pull.val (11 : Nat)] (.fin 2))
        (some 0) 0).next =
      (.error .otherError, CycleIterator.mk (.fin 5)
        (Source.mk [Pull.err, Pull.val (11 : Nat)] (.fin 2)) (some 1) 1)) := by
  constructor
  · exact ((cycleIterator_restart_only_on_exhaustion
      (CycleIterator.mk (.fin 5) (Source.mk [Pull.val (10 : Nat), Pull.val 11] (.fin 2))
        (some 2) 2) 2 rfl rfl).1 (by decide)).1
  · exact (cycleIterator_restart_only_on_exhaustion
      (CycleIterator.mk (.fin 5) (Source.mk [Pull.err, Pull.val (11 : Nat)] (.fin 2))
        (some 0) 0) 0 rfl rfl).2 rfl

theorem requestSeq_ok_inv :
    ∀ (its : List (LoaderIter α)) (xs : List α) (its' : List (LoaderIter α)),
      requestSeq its = (.ok xs, its') →
      List.Forall₂ (fun it x => (LoaderIter.next it).1 = .ok x) its xs := by
  intro its
  induction its with
  | nil =>
    intro xs its' h
    injection h with h1 h2
    injection h1 with h1
    subst h1
    exact List.Forall₂.nil
  | cons it rest ih =>
    intro xs its' h
    cases hnext : it.next with
    | mk r it1 =>
      simp only [requestSeq, hnext] at h
      cases r with
      | error e => simp at h
      | ok x =>
        cases hrest : requestSeq rest with
        | mk rr rest' =>
          rw [hrest] at h
          cases rr with
          | error e => simp at h
          | ok ys =>
            simp only at h
            injection h with h1 h2
            injection h1 with h1
            subst h1
            exact List.Forall₂.cons (by rw [hnext]) (ih ys rest' hrest)

theorem requestMap_ok_inv :
    ∀ (kvs : List (String × LoaderIter α)) (xs : List (String × α))
      (kvs' : List (String × LoaderIter α)),
      requestMap kvs = (.ok xs, kvs') →
      xs.map Prod.fst = kvs.map Prod.fst ∧
      List.Forall₂ (fun it x => (LoaderIter.next it).1 = .ok x)
        (kvs.map Prod.snd) (xs.map Prod.snd) := by
  intro kvs
  induction kvs with
  | nil =>
    intro xs kvs' h
    injection h with h1 h2
    injection h1 with h1
    subst h1
    exact ⟨rfl, List.Forall₂.nil⟩
  | cons kv rest ih =>
    obtain ⟨k, it⟩ := kv
    intro xs kvs' h
    cases hnext : it.next with
    | mk r it1 =>
      simp only [requestMap, hnext] at h
      cases r with
      | error e => simp at h
      | ok x =>
        cases hrest : requestMap rest with
        | mk rr rest' =>
          rw [hrest] at h
          cases rr with
          | error e => simp at h
          | ok ys =>
            simp only at h
            injection h with h1 h2
            injection h1 with h1
            subst h1
            obtain ⟨hkeys, hf⟩ := ih ys rest' hrest
            exact ⟨by simp [hkeys], List.Forall₂.cons (by rw [hnext]) hf⟩

theorem request_next_batch_ok_inv (its : Container (LoaderIter α)) (b : Container α)
    (its' : Container (LoaderIter α)) (h : request_next_batch its = (.ok b, its')) :
    b.sameShape its ∧
    List.Forall₂ (fun it x => (LoaderIter.next it).1 = .ok x) its.leaves b.leaves := by
  cases its with
  | single it =>
    cases hnext : it.next with
    | mk r it1 =>
      simp only [request_next_batch, hnext] at h
      cases r with
      | error e => simp [Except.map] at h
      | ok x =>
        simp only [Except.map] at h
        injection h with h1 h2
        injection h1 with h1
        subst h1
        exact ⟨trivial, List.Forall₂.cons (by rw [hnext]) List.Forall₂.nil⟩
  | seq xs =>
    cases hreq : requestSeq xs with
    | mk r xs' =>
      simp only [request_next_batch, hreq] at h
      cases r with
      | error e => simp [Except.map] at h
      | ok ys =>
        simp only [Except.map] at h
        injection h with h1 h2
        injection h1 with h1
        subst h1
        have hf := requestSeq_ok_inv xs ys xs' hreq
        exact ⟨(List.Forall₂.length_eq hf).symm, hf⟩
  | map kvs =>
    cases hreq : requestMap kvs with
    | mk r kvs1 =>
      simp only [request_next_batch, hreq] at h
      cases r with
      | error e => simp [Except.map] at h
      | ok ys =>
        simp only [Except.map] at h
        injection h with h1 h2
        injection h1 with h1
        subst h1
        obtain ⟨hkeys, hf⟩ := requestMap_ok_inv kvs ys kvs1 hreq
        exact ⟨hkeys, hf⟩

/-- C3: a `request_next_batch` call is all-or-nothing. If it returns a
batch container, every leaf iterator contributed exactly one successfully
pulled element (no leaf is missing); and the moment any leaf's pull signals
`StopIteration` — all leaves pulled before it in traversal order having
succeeded — the whole call fails with `StopIteration` and no partial batch
container is returned. -/
theorem request_next_batch_all_or_nothing (its : Container (LoaderIter α)) :
    (∀ b its', request_next_batch its = (.ok b, its') →
      List.Forall₂ (fun it x => (LoaderIter.next it).1 = .ok x) its.leaves b.leaves) ∧
    (∀ pre post it0, its.leaves = pre ++ it0 :: post →
      (∀ it ∈ pre, ∃ x, (LoaderIter.next it).1 = .ok x) →
      (LoaderIter.next it0).1 = .error .stopIteration →
      (request_next_batch its).1 = .error .stopIteration) := by
  constructor
  · intro b its' h
    exact (request_next_batch_ok_inv its b its' h).2
  · intro pre post it0 hsplit hpre hfail
    exact request_next_batch_first_fail its pre post it0 .stopIteration hsplit hpre hfail

/-- C3 witness: a two-leaf sequence whose second leaf is exhausted fails as
a whole with `StopIteration`, and a fully live container returns one batch
per leaf. -/
theorem request_next_batch_all_or_nothing_witness :
    (request_next_batch (Container.seq
      [LoaderIter.src (Source.mk [Pull.val (10 : Nat)] (.fin 1)) 0,
       LoaderIter.src (Source.mk [Pull.val (20 : Nat)] (.fin 1)) 1])).1
      = .error .stopIteration := by
  refine (request_next_batch_all_or_nothing _).2
    [LoaderIter.src (Source.mk [Pull.val (10 : Nat)] (.fin 1)) 0] []
    (LoaderIter.src (Source.mk [Pull.val (20 : Nat)] (.fin 1)) 1) rfl ?_ (by decide)
  intro it hmem
  rw [List.mem_singleton.1 hmem]
  exact ⟨10, by decide⟩

theorem requestSeq_length (its : List (LoaderIter α)) :
    (requestSeq its).2.length = its.length := by
  induction its with
  | nil => rfl
  | cons it rest ih =>
    cases hnext : it.next with
    | mk r it' =>
      cases r with
      | ok x =>
        cases hrest : requestSeq rest with
        | mk rr rest' =>
          rw [hrest] at ih
          cases rr <;> simp only [requestSeq, hnext, hrest] <;> simpa using ih
      | error e => simp [requestSeq, hnext]

theorem requestMap_keys (kvs : List (String × LoaderIter α)) :
    (requestMap kvs).2.map Prod.fst = kvs.map Prod.fst := by
  induction kvs with
  | nil => rfl
  | cons kv rest ih =>
    obtain ⟨k, it⟩ := kv
    cases hnext : it.next with
    | mk r it' =>
      cases r with
      | ok x =>
        cases hrest : requestMap rest with
        | mk rr rest' =>
          rw [hrest] at ih
          cases rr <;> simp only [requestMap, hnext, hrest, List.map_cons] <;>
            simpa using ih
      | error e => simp [requestMap, hnext]

/-- The state component of `request_next_batch` keeps the container shape,
whether the call returned a batch or raised. -/
theorem request_next_batch_shape (its : Container (LoaderIter α)) :
    (request_next_batch its).2.sameShape its := by
  cases its with
  | single it =>
    cases hnext : it.next with
    | mk r it' => simp [request_next_batch, hnext, Container.sameShape]
  | seq xs =>
    cases hreq : requestSeq xs with
    | mk r xs' =>
      have hlen := requestSeq_length xs
      rw [hreq] at hlen
      simp only [request_next_batch, hreq, Container.sameShape]
      exact hlen
  | map kvs =>
    cases hreq : requestMap kvs with
    | mk r kvs' =>
      have hkeys := requestMap_keys kvs
      rw [hreq] at hkeys
      simp only [request_next_batch, hreq, Container.sameShape]
      exact hkeys

/-- `CombinedLoaderIterator.__next__` written out: the result of one
`request_next_batch` over the (lazily created) iterator container, with the
advanced iterator container stored back into the session. -/
theorem combinedLoaderIterator_next_spec (s : CombinedLoaderIterator α) :
    s.next = ((request_next_batch (s.loader_iters.getD (create_loader_iters s.loaders))).1,
      CombinedLoaderIterator.mk s.loaders
        (some (request_next_batch
          (s.loader_iters.getD (create_loader_iters s.loaders))).2)) := by
  cases hreq : request_next_batch (s.loader_iters.getD (create_loader_iters s.loaders)) with
  | mk r its' => simp [CombinedLoaderIterator.next, hreq]

theorem sessionAfter_inv (loaders : Container (Loader α)) :
    ∀ (m : Nat) (s : CombinedLoaderIterator α),
      s.loaders = loaders →
      (∀ its0, s.loader_iters = some its0 → its0.sameShape loaders) →
      (sessionAfter m s).loaders = loaders ∧
      (∀ its0, (sessionAfter m s).loader_iters = some its0 → its0.sameShape loaders) := by
  intro m
  induction m with
  | zero =>
    intro s h1 h2
    exact ⟨h1, h2⟩
  | succ m ih =>
    intro s h1 h2
    have hits : (s.loader_iters.getD (create_loader_iters s.loaders)).sameShape loaders := by
      cases hli : s.loader_iters with
      | none =>
        rw [Option.getD_none, h1]
        exact Container.sameShape_applyToCollection Loader.iter loaders
      | some its1 =>
        rw [Option.getD_some]
        exact h2 its1 hli
    show (sessionAfter m (s.next).2).loaders = loaders ∧ _
    refine ih (s.next).2 ?_ ?_
    · rw [combinedLoaderIterator_next_spec]
      exact h1
    · intro its0 hits0
      rw [combinedLoaderIterator_next_spec] at hits0
      injection hits0 with hits0
      rw [← hits0]
      exact Container.sameShape_trans (request_next_batch_shape _) hits

/-- C6: every element returned by any `next()` call of a session — the
`k`-th call for every `k`, not only the first — has the same structural
kind at every position as the loader container the session was begun over,
with identical keys in identical order for mappings; its leaves are exactly
the batches pulled, one each, from the session's current leaf iterators. -/
theorem next_preserves_shape (loaders : Container (Loader α)) (k : Nat)
    (b : Container α) (s' : CombinedLoaderIterator α)
    (h : (sessionAfter k (CombinedLoaderIterator.mk loaders none)).next = (.ok b, s')) :
    b.sameShape loaders ∧
    List.Forall₂ (fun it x => (LoaderIter.next it).1 = .ok x)
      ((sessionAfter k (CombinedLoaderIterator.mk loaders none)).loader_iters.getD
        (create_loader_iters loaders)).leaves b.leaves := by
  obtain ⟨hld, hli⟩ := sessionAfter_inv loaders k (CombinedLoaderIterator.mk loaders none)
    rfl (by intro its0 h0; cases h0)
  have hits : ((sessionAfter k (CombinedLoaderIterator.mk loaders none)).loader_iters.getD
      (create_loader_iters loaders)).sameShape loaders := by
    cases hli0 : (sessionAfter k (CombinedLoaderIterator.mk loaders none)).loader_iters with
    | none =>
      rw [Option.getD_none]
      exact Container.sameShape_applyToCollection Loader.iter loaders
    | some its1 =>
      rw [Option.getD_some]
      exact hli its1 hli0
  rw [combinedLoaderIterator_next_spec, hld] at h
  injection h with h1 h2
  cases hreq : request_next_batch
      ((sessionAfter k (CombinedLoaderIterator.mk loaders none)).loader_iters.getD
        (create_loader_iters loaders)) with
  | mk r its2 =>
    rw [hreq] at h1
    subst h1
    obtain ⟨hsh, hf⟩ := request_next_batch_ok_inv _ _ _ hreq
    exact ⟨Container.sameShape_trans hsh hits, hf⟩

/-- C6 witness: the second `next()` (`k = 1`) of a session over the mapping
`{a: 2-batch loader, b: 3-batch loader}` returns a mapping with the same
keys holding each loader's second batch, pulled from the advanced
iterators. -/
theorem next_preserves_shape_witness :
    (Container.map [("a", (11 : Nat)), ("b", 21)]).sameShape
      (Container.map [("a", Loader.src (Source.mk [Pull.val (10 : Nat), Pull.val 11] (.fin 2))),
        ("b", Loader.src (Source.mk [Pull.val (20 : Nat), Pull.val 21, Pull.val 22] (.fin 3)))]) ∧
    List.Forall₂ (fun it x => (LoaderIter.next it).1 = .ok x)
      ((sessionAfter 1 (CombinedLoaderIterator.mk
        (Container.map [("a", Loader.src (Source.mk [Pull.val (10 : Nat), Pull.val 11] (.fin 2))),
          ("b", Loader.src (Source.mk [Pull.val (20 : Nat), Pull.val 21, Pull.val 22] (.fin 3)))])
        none)).loader_iters.getD
        (create_loader_iters
          (Container.map [("a", Loader.src (Source.mk [Pull.val (10 : Nat), Pull.val 11] (.fin 2))),
            ("b", Loader.src (Source.mk [Pull.val (20 : Nat), Pull.val 21, Pull.val 22] (.fin 3)))]))).leaves
      (Container.map [("a", (11 : Nat)), ("b", 21)]).leaves :=
  next_preserves_shape
    (Container.map [("a", Loader.src (Source.mk [Pull.val (10 : Nat), Pull.val 11] (.fin 2))),
      ("b", Loader.src (Source.mk [Pull.val (20 : Nat), Pull.val 21, Pull.val 22] (.fin 3)))])
    1 (Container.map [("a", (11 : Nat)), ("b", 21)])
    (CombinedLoaderIterator.mk
      (Container.map [("a", Loader.src (Source.mk [Pull.val (10 : Nat), Pull.val 11] (.fin 2))),
        ("b", Loader.src (Source.mk [Pull.val (20 : Nat), Pull.val 21, Pull.val 22] (.fin 3)))])
      (some (Container.map
        [("a", LoaderIter.src (Source.mk [Pull.val (10 : Nat), Pull.val 11] (.fin 2)) 2),
         ("b", LoaderIter.src (Source.mk [Pull.val (20 : Nat), Pull.val 21, Pull.val 22] (.fin 3)) 2)])))
    (by decide)

/-- C7 counterexample: constructing a `CombinedLoader` over one source with
the unsupported mode string `"typo_mode"` does raise the invalid-mode
`MisconfigurationException`, but only after reading the `dataset` attribute
of the source — the touch trace is nonempty, refuting "no attribute access
is performed on any source before the failure". -/
theorem init_invalid_mode_touches_source :
    (CombinedLoader.init
        (Container.seq [Source.mk [Pull.val (0 : Nat)] (.fin 1)]) "typo_mode").1
      = .error (.misconfiguration "You have selected unsupported mode typo_mode") ∧
    (CombinedLoader.init
        (Container.seq [Source.mk [Pull.val (0 : Nat)] (.fin 1)]) "typo_mode").2
      = [TouchOp.getattrDataset] := by
  constructor <;> rfl

/-- C7 amended: construction with a mode outside the supported set fails
with the invalid-mode `MisconfigurationException` before any length query
or iterator creation on any source; the only source interaction performed
before the failure is one `dataset`-attribute read per leaf source. -/
theorem invalid_mode_fails_after_only_dataset_reads (srcs : Container (Source α))
    (mode : String) (h : mode ∉ COMPUTE_FUNCS) :
    (∃ m, (CombinedLoader.init srcs mode).1 = .error (.misconfiguration m)) ∧
    (∀ op ∈ (CombinedLoader.init srcs mode).2, op = TouchOp.getattrDataset) ∧
    (CombinedLoader.init srcs mode).2.length = srcs.leaves.length := by
  have hmake : CombinedDataset.make (srcs.applyToCollection fun s => s.dataset) mode
      = .error (.misconfiguration ("You have selected unsupported mode " ++ mode)) := by
    unfold CombinedDataset.make
    rw [if_pos h]
  refine ⟨⟨"You have selected unsupported mode " ++ mode, ?_⟩, ?_, ?_⟩
  · simp only [CombinedLoader.init, hmake]
  · intro op hop
    simp only [CombinedLoader.init, hmake] at hop
    rcases List.mem_map.1 hop with ⟨_, _, rfl⟩
    rfl
  · simp only [CombinedLoader.init, hmake, List.length_map]

/-- C7 amended witness: the amended statement at a concrete two-source
mapping and the mode string `"typo_mode"`. -/
theorem invalid_mode_fails_after_only_dataset_reads_witness :
    "typo_mode" ∉ COMPUTE_FUNCS ∧
    ((∃ m, (CombinedLoader.init (Container.map
        [("a", Source.mk [Pull.val (0 : Nat)] (.fin 1)),
         ("b", Source.mk [Pull.val (1 : Nat)] (.fin 1))]) "typo_mode").1
        = .error (.misconfiguration m)) ∧
      (∀ op ∈ (CombinedLoader.init (Container.map
        [("a", Source.mk [Pull.val (0 : Nat)] (.fin 1)),
         ("b", Source.mk [Pull.val (1 : Nat)] (.fin 1))]) "typo_mode").2,
        op = TouchOp.getattrDataset) ∧
      (CombinedLoader.init (Container.map
        [("a", Source.mk [Pull.val (0 : Nat)] (.fin 1)),
         ("b", Source.mk [Pull.val (1 : Nat)] (.fin 1))]) "typo_mode").2.length
        = (Container.map
        [("a", Source.mk [Pull.val (0 : Nat)] (.fin 1)),
         ("b", Source.mk [Pull.val (1 : Nat)] (.fin 1))]).leaves.length) :=
  ⟨by decide, invalid_mode_fails_after_only_dataset_reads _ "typo_mode" (by decide)⟩

/-- C8: aggregating the length of an empty sequence or empty mapping of
sources raises `ValueError` (the spec's `AggregationError`), both for the
dataset-level reduction `_calc_num_data` (in either mode) and for the
loader-level reduction `_calc_num_batches`. -/
theorem empty_container_aggregation_error (mode : String) (h : mode ∈ COMPUTE_FUNCS) :
    CombinedDataset.calc_num_data (Container.seq []) mode = .error .valueError ∧
    CombinedDataset.calc_num_data (Container.map []) mode = .error .valueError ∧
    calc_num_batches (Container.seq ([] : List (Loader Nat))) = .error .valueError ∧
    calc_num_batches (Container.map ([] : List (String × Loader Nat)))
      = .error .valueError := by
  have h' : ¬ mode ∉ COMPUTE_FUNCS := not_not_intro h
  refine ⟨?_, ?_, rfl, rfl⟩ <;>
    · unfold CombinedDataset.calc_num_data
      rw [if_neg h']
      show computeFunc mode [] = .error .valueError
      unfold computeFunc
      split <;> rfl

/-- C8 witness: the statement at the concrete mode `"min_size"`. -/
theorem empty_container_aggregation_error_witness :
    "min_size" ∈ COMPUTE_FUNCS ∧
    CombinedDataset.calc_num_data (Container.seq []) "min_size" = .error .valueError :=
  ⟨by decide, (empty_container_aggregation_error "min_size" (by decide)).1⟩

theorem calc_num_data_fin (ds : Container Length) (mode : String) (ns : List Nat) (n : Nat)
    (hmode : mode ∈ COMPUTE_FUNCS)
    (hds : ds.leaves = ns.map .fin)
    (hred : computeFunc mode (ns.map .fin) = .ok (.fin n))
    (hsingle : ∀ l, ds = .single l → l = .fin n) :
    CombinedDataset.calc_num_data ds mode = .ok (.fin n) := by
  have h' : ¬ mode ∉ COMPUTE_FUNCS := not_not_intro hmode
  unfold CombinedDataset.calc_num_data
  rw [if_neg h']
  cases ds with
  | single l =>
    show Except.ok l = .ok (.fin n)
    rw [hsingle l rfl]
  | seq ls =>
    show computeFunc mode ls = .ok (.fin n)
    have : ls = ns.map .fin := hds
    rw [this]
    exact hred
  | map kvs =>
    show computeFunc mode (kvs.map Prod.snd) = .ok (.fin n)
    have : kvs.map Prod.snd = ns.map .fin := hds
    rw [this]
    exact hred

theorem computeFunc_min (ns : List Nat) (n : Nat) (hmem : n ∈ ns)
    (hlb : ∀ m ∈ ns, n ≤ m) : computeFunc "min_size" (ns.map .fin) = .ok (.fin n) := by
  unfold computeFunc
  rw [if_pos rfl]
  exact pyMin_fin ns n hmem hlb

theorem computeFunc_max (ns : List Nat) (L : Nat) (hmem : L ∈ ns)
    (hub : ∀ m ∈ ns, m ≤ L) : computeFunc "max_size_cycle" (ns.map .fin) = .ok (.fin L) := by
  unfold computeFunc
  rw [if_neg (by decide)]
  exact pyMax_fin ns L hmem hub

/-- C9: the `max_len` view of a `CombinedDataset` always applies the
`max_size_cycle` reduction and `min_len` always the `min_size` reduction,
whatever mode the dataset was configured with; both are pure functions of
the dataset container (repeated calls agree and nothing is mutated), and on
finite leaf lengths they return the genuine maximum and minimum. -/
theorem combinedDataset_views_fixed_reduction (ds : Container Length) (m1 m2 : String) :
    (CombinedDataset.mk ds m1).max_len = (CombinedDataset.mk ds m2).max_len ∧
    (CombinedDataset.mk ds m1).min_len = (CombinedDataset.mk ds m2).min_len ∧
    (CombinedDataset.mk ds m1).max_len
      = CombinedDataset.calc_num_data ds "max_size_cycle" ∧
    (CombinedDataset.mk ds m1).min_len = CombinedDataset.calc_num_data ds "min_size" ∧
    (∀ (ns : List Nat) (L : Nat), ds.leaves = ns.map .fin → L ∈ ns → (∀ m ∈ ns, m ≤ L) →
      (CombinedDataset.mk ds m1).max_len = .ok (.fin L)) ∧
    (∀ (ns : List Nat) (n : Nat), ds.leaves = ns.map .fin → n ∈ ns → (∀ m ∈ ns, n ≤ m) →
      (CombinedDataset.mk ds m1).min_len = .ok (.fin n)) := by
  refine ⟨rfl, rfl, rfl, rfl, ?_, ?_⟩
  · intro ns L hds hmem hub
    show CombinedDataset.calc_num_data ds "max_size_cycle" = .ok (.fin L)
    refine calc_num_data_fin ds "max_size_cycle" ns L (by decide) hds
      (computeFunc_max ns L hmem hub) ?_
    intro l hl
    subst hl
    have hds' : [l] = ns.map Length.fin := hds
    cases ns with
    | nil => cases hds'
    | cons a t =>
      cases t with
      | cons b t2 => cases hds'
      | nil =>
        injection hds' with h1 h2
        have : L = a := by
          have := hub a (by simp)
          rcases List.mem_singleton.1 hmem with rfl
          rfl
        rw [h1, this]
  · intro ns n hds hmem hlb
    show CombinedDataset.calc_num_data ds "min_size" = .ok (.fin n)
    refine calc_num_data_fin ds "min_size" ns n (by decide) hds
      (computeFunc_min ns n hmem hlb) ?_
    intro l hl
    subst hl
    have hds' : [l] = ns.map Length.fin := hds
    cases ns with
    | nil => cases hds'
    | cons a t =>
      cases t with
      | cons b t2 => cases hds'
      | nil =>
        injection hds' with h1 h2
        have : n = a := by
          have := hlb a (by simp)
          rcases List.mem_singleton.1 hmem with rfl
          rfl
        rw [h1, this]

/-- C9 witness: both views at a concrete dataset mapping with leaf lengths
2 and 5, under both configured modes. -/
theorem combinedDataset_views_fixed_reduction_witness :
    (CombinedDataset.mk (Container.map [("a", Length.fin 2), ("b", Length.fin 5)])
        "min_size").max_len = .ok (.fin 5) ∧
    (CombinedDataset.mk (Container.map [("a", Length.fin 2), ("b", Length.fin 5)])
        "min_size").min_len = .ok (.fin 2) := by
  have h := combinedDataset_views_fixed_reduction
    (Container.map [("a", Length.fin 2), ("b", Length.fin 5)]) "min_size" "max_size_cycle"
  exact ⟨h.2.2.2.2.1 [2, 5] 5 (by decide) (by decide) (by decide),
    h.2.2.2.2.2 [2, 5] 2 (by decide) (by decide) (by decide)⟩

/-- C10: `len` of a `CombinedDataset` reduces with the dataset's own
configured mode — it equals the `min_len` view when the mode is
`'min_size'` and the `max_len` view when the mode is `'max_size_cycle'`; in
particular, whenever the two views differ, the `'max_size_cycle'` length is
not the minimum. -/
theorem combinedDataset_len_uses_mode (ds : Container Length) :
    (CombinedDataset.mk ds "min_size").len = (CombinedDataset.mk ds "min_size").min_len ∧
    (CombinedDataset.mk ds "max_size_cycle").len
      = (CombinedDataset.mk ds "max_size_cycle").max_len ∧
    ((CombinedDataset.mk ds "max_size_cycle").max_len
        ≠ (CombinedDataset.mk ds "max_size_cycle").min_len →
      (CombinedDataset.mk ds "max_size_cycle").len
        ≠ (CombinedDataset.mk ds "max_size_cycle").min_len) := by
  exact ⟨rfl, rfl, fun h => h⟩

/-- C10 witness: with leaf lengths 2 and 5 in `'max_size_cycle'` mode, the
dataset's own length is not the minimum. -/
theorem combinedDataset_len_uses_mode_witness :
    (CombinedDataset.mk (Container.seq [Length.fin 2, Length.fin 5])
        "max_size_cycle").len
      ≠ (CombinedDataset.mk (Container.seq [Length.fin 2, Length.fin 5])
        "max_size_cycle").min_len :=
  (combinedDataset_len_uses_mode (Container.seq [Length.fin 2, Length.fin 5])).2.2
    (by decide)

theorem Container.sameShape_leaves_length {a : Container α} {b : Container β}
    (h : a.sameShape b) : a.leaves.length = b.leaves.length := by
  cases a with
  | single x =>
    cases b with
    | single y => rfl
    | seq ys => cases h
    | map kvs' => cases h
  | seq xs =>
    cases b with
    | single y => cases h
    | seq ys => simpa [Container.leaves] using h
    | map kvs' => cases h
  | map kvs =>
    cases b with
    | single y => cases h
    | seq ys => cases h
    | map kvs' =>
      have := congrArg List.length h
      simpa [Container.leaves] using this

theorem calc_num_batches_fin (w : Container (Loader α)) (ns : List Nat) (n : Nat)
    (hns : w.leaves.map Loader.get_len = ns.map .fin)
    (hmem : n ∈ ns) (hlb : ∀ m ∈ ns, n ≤ m) :
    calc_num_batches w = .ok (.fin n) := by
  cases w with
  | single ld =>
    show Except.ok (Loader.get_len ld) = .ok (.fin n)
    simp only [Container.leaves, List.map_cons, List.map_nil] at hns
    cases ns with
    | nil => cases hns
    | cons a t =>
      cases t with
      | cons b t2 =>
        injection hns with h1 h2
        simp at h2
      | nil =>
        injection hns with h1 h2
        have hn : n = a := List.mem_singleton.1 hmem
        rw [h1, hn]
  | seq xs =>
    show pyMin (xs.map Loader.get_len) = .ok (.fin n)
    have hx : xs.map Loader.get_len = ns.map .fin := hns
    rw [hx]
    exact pyMin_fin ns n hmem hlb
  | map kvs =>
    show pyMin ((kvs.map fun kv => (kv.1, Loader.get_len kv.2)).map Prod.snd)
      = .ok (.fin n)
    have hx : (kvs.map fun kv => (kv.1, Loader.get_len kv.2)).map Prod.snd
        = (kvs.map Prod.snd).map Loader.get_len := by
      simp only [List.map_map]
      rfl
    have hx2 : (kvs.map Prod.snd).map Loader.get_len = ns.map .fin := hns
    rw [hx, hx2]
    exact pyMin_fin ns n hmem hlb

theorem wrap_loaders_spec (srcs : Container (Source α)) (L : Nat)
    (hmem : L ∈ leafLens srcs) (hub : ∀ m ∈ leafLens srcs, m ≤ L) :
    ∃ w, wrap_loaders_max_size_cycle srcs = .ok w ∧ w.sameShape srcs ∧
      ((∃ s, srcs = .single s ∧ w = .single (.src s)) ∨
        w.leaves = srcs.leaves.map fun s => .cyc (CycleIterator.init s (some (.fin L)))) := by
  cases srcs with
  | single s => exact ⟨.single (.src s), rfl, trivial, Or.inl ⟨s, rfl, rfl⟩⟩
  | seq xs =>
    have hmax : pyMax (xs.map Source.get_len) = .ok (.fin L) := by
      have heq : xs.map Source.get_len = (xs.map fun s => s.data.length).map Length.fin := by
        rw [List.map_map]
        rfl
      rw [heq]
      exact pyMax_fin _ L hmem hub
    refine ⟨.seq (xs.map fun v => .cyc (CycleIterator.init v (some (.fin L)))),
      ?_, ?_, Or.inr rfl⟩
    · unfold wrap_loaders_max_size_cycle
      dsimp only [Container.applyToCollection]
      rw [hmax]
    · simp [Container.sameShape]
  | map kvs =>
    have hmax : pyMax ((kvs.map fun kv => (kv.1, Source.get_len kv.2)).map Prod.snd)
        = .ok (.fin L) := by
      have heq : (kvs.map fun kv => (kv.1, Source.get_len kv.2)).map Prod.snd
          = ((kvs.map Prod.snd).map fun s => s.data.length).map Length.fin := by
        simp only [List.map_map]
        rfl
      rw [heq]
      exact pyMax_fin _ L hmem hub
    refine ⟨.map (kvs.map fun kv => (kv.1, .cyc (CycleIterator.init kv.2 (some (.fin L))))),
      ?_, ?_, Or.inr ?_⟩
    · unfold wrap_loaders_max_size_cycle
      dsimp only [Container.applyToCollection]
      rw [hmax]
    · simp only [Container.sameShape, List.map_map]
      rfl
    · simp only [Container.leaves, List.map_map]
      rfl

theorem init_min_eq (srcs : Container (Source α)) :
    (CombinedLoader.init srcs "min_size").1 =
      .ok { loaders := srcs.applyToCollection Loader.src,
            dataset := { datasets := srcs.applyToCollection fun s => s.dataset,
                         mode := "min_size" },
            mode := "min_size" } := by
  simp [CombinedLoader.init, CombinedDataset.make, COMPUTE_FUNCS]

theorem init_max_eq (srcs : Container (Source α)) :
    (CombinedLoader.init srcs "max_size_cycle").1 =
      (wrap_loaders_max_size_cycle srcs).map fun w =>
        { loaders := w,
          dataset := { datasets := srcs.applyToCollection fun s => s.dataset,
                       mode := "max_size_cycle" },
          mode := "max_size_cycle" } := by
  cases hw : wrap_loaders_max_size_cycle srcs with
  | ok w => simp [CombinedLoader.init, CombinedDataset.make, COMPUTE_FUNCS, hw, Except.map]
  | error e => simp [CombinedLoader.init, CombinedDataset.make, COMPUTE_FUNCS, hw, Except.map]

/-- C2: for a container of well-behaved sources (each yields exactly its
declared number of elements) with `n` the minimum of the leaf lengths,
constructing a `CombinedLoader` in `'min_size'` mode succeeds, its
`__len__` is `n`, and a session makes exactly `n` successful `next()`
calls — each leaf having produced exactly `n` elements — before the next
call fails with `StopIteration`. -/
theorem min_size_length_and_session (srcs : Container (Source α)) (n : Nat)
    (hall : ∀ s ∈ srcs.leaves, s.allVal = true)
    (hmem : n ∈ leafLens srcs) (hlb : ∀ m ∈ leafLens srcs, n ≤ m) :
    ∃ cl : CombinedLoader α,
      (CombinedLoader.init srcs "min_size").1 = .ok cl ∧
      cl.len = .ok (.fin n) ∧
      ∃ its, runNexts n (create_loader_iters cl.loaders) = some its ∧
        (request_next_batch its).1 = .error .stopIteration ∧
        ∀ it ∈ its.leaves, LoaderIter.produced it = n := by
  refine ⟨CombinedLoader.mk (srcs.applyToCollection Loader.src)
    (CombinedDataset.mk (srcs.applyToCollection fun s => s.dataset) "min_size")
    "min_size", init_min_eq srcs, ?_, ?_⟩
  · show calc_num_batches (srcs.applyToCollection Loader.src) = .ok (.fin n)
    refine calc_num_batches_fin _ (leafLens srcs) n ?_ hmem hlb
    rw [Container.leaves_applyToCollection, List.map_map]
    show srcs.leaves.map (fun s => Loader.get_len (.src s))
      = (srcs.leaves.map fun s => s.data.length).map Length.fin
    rw [List.map_map]
    rfl
  · have hleaf0 : (create_loader_iters
        (srcs.applyToCollection Loader.src)).leaves
        = srcs.leaves.map fun s => .src s 0 := by
      unfold create_loader_iters
      rw [Container.leaves_applyToCollection, Container.leaves_applyToCollection,
        List.map_map]
      rfl
    have hlen0 : ∀ s ∈ srcs.leaves, 0 + n ≤ s.data.length := by
      intro s hs
      have := hlb s.data.length (List.mem_map_of_mem _ hs)
      omega
    rcases runNexts_src srcs.leaves hall n 0 _ hlen0 hleaf0 with ⟨its, hrun, hleaves, _⟩
    refine ⟨its, hrun, ?_, ?_⟩
    · have hleaves' : its.leaves = srcs.leaves.map fun s => .src s n := by
        simpa using hleaves
      have hnext_src : ∀ (s : Source α) (i : Nat),
          (LoaderIter.next (.src s i)).1 = (s.pull i).1 := by
        intro s i
        cases hp : s.pull i with
        | mk r i' => simp [LoaderIter.next, hp]
      refine request_next_batch_stop its ?_ ?_
      · intro it hmem'
        rw [hleaves'] at hmem'
        rcases List.mem_map.1 hmem' with ⟨s, hs, rfl⟩
        rw [hnext_src]
        exact Source.pull_ok_or_stop (hall s hs) n
      · rcases List.mem_map.1 hmem with ⟨s, hs, hsn⟩
        refine ⟨.src s n, by rw [hleaves']; exact List.mem_map_of_mem _ hs, ?_⟩
        rw [hnext_src, Source.pull_stop (by omega)]
    · intro it hmem'
      have hleaves' : its.leaves = srcs.leaves.map fun s => .src s n := by
        simpa using hleaves
      rw [hleaves'] at hmem'
      rcases List.mem_map.1 hmem' with ⟨s, hs, rfl⟩
      rfl

/-- C2 witness: the mapping `{a: 2 batches, b: 3 batches}` in `'min_size'`
mode has length 2 and the session performs exactly 2 `next()` calls. -/
theorem min_size_length_and_session_witness :
    ∃ cl : CombinedLoader Nat,
      (CombinedLoader.init (Container.map
        [("a", Source.mk [Pull.val (10 : Nat), Pull.val 11] (.fin 2)),
         ("b", Source.mk [Pull.val (20 : Nat), Pull.val 21, Pull.val 22] (.fin 3))])
        "min_size").1 = .ok cl ∧
      cl.len = .ok (.fin 2) ∧
      ∃ its, runNexts 2 (create_loader_iters cl.loaders) = some its ∧
        (request_next_batch its).1 = .error .stopIteration ∧
        ∀ it ∈ its.leaves, LoaderIter.produced it = 2 :=
  min_size_length_and_session
    (Container.map
      [("a", Source.mk [Pull.val (10 : Nat), Pull.val 11] (.fin 2)),
       ("b", Source.mk [Pull.val (20 : Nat), Pull.val 21, Pull.val 22] (.fin 3))])
    2 (by decide) (by decide) (by decide)

/-- C1: for a container of nonempty well-behaved sources with `L` the
maximum of the leaf lengths, constructing a `CombinedLoader` in
`'max_size_cycle'` mode succeeds; every sequence or mapping leaf is wrapped
in a `CycleIterator` with budget `L` (a single bare source stays
unwrapped), every leaf of the resulting container reports length `L`, so
the combinator's min-reduction `__len__` is `L`; and a session makes
exactly `L` successful `next()` calls — each leaf producing exactly `L`
elements — before the next call fails with `StopIteration`. -/
theorem max_size_cycle_length_and_session (srcs : Container (Source α)) (L : Nat)
    (hall : ∀ s ∈ srcs.leaves, s.allVal = true)
    (hpos : ∀ m ∈ leafLens srcs, 1 ≤ m)
    (hmem : L ∈ leafLens srcs) (hub : ∀ m ∈ leafLens srcs, m ≤ L) :
    ∃ cl : CombinedLoader α,
      (CombinedLoader.init srcs "max_size_cycle").1 = .ok cl ∧
      cl.loaders.sameShape srcs ∧
      (∀ ld ∈ cl.loaders.leaves, Loader.get_len ld = .fin L) ∧
      cl.len = .ok (.fin L) ∧
      ((∀ s, srcs ≠ .single s) → cl.loaders.leaves
        = srcs.leaves.map fun s => .cyc (CycleIterator.init s (some (.fin L)))) ∧
      ∃ its, runNexts L (create_loader_iters cl.loaders) = some its ∧
        (request_next_batch its).1 = .error .stopIteration ∧
        ∀ it ∈ its.leaves, LoaderIter.produced it = L := by
  rcases wrap_loaders_spec srcs L hmem hub with ⟨w, hw, hshape, hcase⟩
  have hinit : (CombinedLoader.init srcs "max_size_cycle").1 =
      .ok (CombinedLoader.mk w
        (CombinedDataset.mk (srcs.applyToCollection fun s => s.dataset) "max_size_cycle")
        "max_size_cycle") := by
    rw [init_max_eq, hw]
    rfl
  have hleaves_ne : srcs.leaves ≠ [] := by
    intro hnil
    rw [leafLens, hnil] at hmem
    cases hmem
  have hlen_leaf : ∀ ld ∈ w.leaves, Loader.get_len ld = .fin L := by
    rcases hcase with ⟨s, hsrc, hwv⟩ | hwl
    · intro ld hld
      subst hsrc
      subst hwv
      have : ld = .src s := List.mem_singleton.1 hld
      subst this
      have hL : L = s.data.length := List.mem_singleton.1 hmem
      rw [hL]
      rfl
    · intro ld hld
      rw [hwl] at hld
      rcases List.mem_map.1 hld with ⟨s, _, rfl⟩
      rfl
  refine ⟨_, hinit, hshape, hlen_leaf, ?_, ?_, ?_⟩
  · show calc_num_batches w = .ok (.fin L)
    refine calc_num_batches_fin w (srcs.leaves.map fun _ => L) L ?_ ?_ ?_
    · have h1 : w.leaves.map Loader.get_len = w.leaves.map fun _ => Length.fin L :=
        List.map_congr_left hlen_leaf
      have h2 : (srcs.leaves.map fun _ => L).map Length.fin
          = srcs.leaves.map fun _ => Length.fin L := by
        rw [List.map_map]
        rfl
      rw [h1, h2, List.map_const', List.map_const',
        Container.sameShape_leaves_length hshape]
    · rcases List.exists_mem_of_ne_nil _ hleaves_ne with ⟨s0, hs0⟩
      exact List.mem_map.2 ⟨s0, hs0, rfl⟩
    · intro m hm
      rcases List.mem_map.1 hm with ⟨_, _, rfl⟩
      exact Nat.le_refl L
  · intro hnot
    rcases hcase with ⟨s, hsrc, _⟩ | hwl
    · exact absurd hsrc (hnot s)
    · exact hwl
  · have h0 : ∀ it ∈ (create_loader_iters w).leaves, GoodAt L 0 it := by
      unfold create_loader_iters
      rw [Container.leaves_applyToCollection]
      rcases hcase with ⟨s, hsrc, hwv⟩ | hwl
      · subst hsrc
        subst hwv
        intro it hit
        have : it = Loader.iter (.src s) := List.mem_singleton.1 hit
        subst this
        have hL : L = s.data.length := List.mem_singleton.1 hmem
        exact ⟨rfl, hall s (List.mem_singleton.2 rfl), hL.symm⟩
      · rw [hwl, List.map_map]
        intro it hit
        rcases List.mem_map.1 hit with ⟨s, hs, rfl⟩
        refine ⟨rfl, rfl, hall s hs, ?_, 0, Nat.zero_le _, rfl⟩
        exact hpos s.data.length (List.mem_map_of_mem _ hs)
    rcases runNexts_pred (GoodAt L) L (fun k it hk h => goodAt_step hk h) L 0
      (create_loader_iters w) (by omega) h0 with ⟨its, hrun, hP, hsh⟩
    have hPL : ∀ it ∈ its.leaves, GoodAt L L it := by
      intro it hit
      have := hP it hit
      simpa using this
    refine ⟨its, hrun, ?_, ?_⟩
    · refine request_next_batch_stop its (fun it hit => Or.inr (goodAt_stop (hPL it hit))) ?_
      have hlen_its : its.leaves.length = srcs.leaves.length := by
        rw [Container.sameShape_leaves_length hsh]
        unfold create_loader_iters
        rw [Container.leaves_applyToCollection, List.length_map,
          Container.sameShape_leaves_length hshape]
      have hne : its.leaves ≠ [] := by
        intro hnil
        rw [hnil] at hlen_its
        exact hleaves_ne (List.eq_nil_of_length_eq_zero hlen_its.symm)
      rcases List.exists_mem_of_ne_nil _ hne with ⟨it0, hit0⟩
      exact ⟨it0, hit0, goodAt_stop (hPL it0 hit0)⟩
    · intro it hit
      have hg := hPL it hit
      cases it with
      | src s i => exact hg.1
      | cyc c => exact hg.1

/-- C1 witness: the mapping `{a: 2 batches, b: 3 batches}` in
`'max_size_cycle'` mode has length 3, every leaf reports length 3, and the
session performs exactly 3 `next()` calls with each leaf producing 3
elements. -/
theorem max_size_cycle_length_and_session_witness :
    ∃ cl : CombinedLoader Nat,
      (CombinedLoader.init (Container.map
        [("a", Source.mk [Pull.val (10 : Nat), Pull.val 11] (.fin 2)),
         ("b", Source.mk [Pull.val (20 : Nat), Pull.val 21, Pull.val 22] (.fin 3))])
        "max_size_cycle").1 = .ok cl ∧
      cl.loaders.sameShape (Container.map
        [("a", Source.mk [Pull.val (10 : Nat), Pull.val 11] (.fin 2)),
         ("b", Source.mk [Pull.val (20 : Nat), Pull.val 21, Pull.val 22] (.fin 3))]) ∧
      (∀ ld ∈ cl.loaders.leaves, Loader.get_len ld = .fin 3) ∧
      cl.len = .ok (.fin 3) ∧
      ∃ its, runNexts 3 (create_loader_iters cl.loaders) = some its ∧
        (request_next_batch its).1 = .error .stopIteration ∧
        ∀ it ∈ its.leaves, LoaderIter.produced it = 3 := by
  rcases max_size_cycle_length_and_session
    (Container.map
      [("a", Source.mk [Pull.val (10 : Nat), Pull.val 11] (.fin 2)),
       ("b", Source.mk [Pull.val (20 : Nat), Pull.val 21, Pull.val 22] (.fin 3))])
    3 (by decide) (by decide) (by decide) (by decide) with
    ⟨cl, h1, h2, h3, h4, _, h6⟩
  exact ⟨cl, h1, h2, h3, h4, h6⟩

end Supporters
